import Mathlib

/-!
Verification of the legacy-project consolidation migrator
(`projectConsolidateMigrator`): the Detector (`needConsolidateLocalRemote`),
the interactive gate (`upgrade`), the Transformer (`consolidateLocalRemote`)
with its backup/rollback bookkeeping, the structural manifest `diff`, the
SPFx component-id rewrite, and the `checkMethod` single-flight guard.

JavaScript values appearing in the migrator are shallowly embedded:
JSON trees as an inductive type, the filesystem as a finite map from
segment-list paths to file contents, fallible asynchronous steps as
explicit crash-injection points.
-/

set_option maxHeartbeats 1000000

namespace ConsolidateMW

/-! ## Decimal index keys

`Object.keys` on a JavaScript array (or string) yields the canonical
decimal strings `"0", "1", ...`. `natKey` prints a natural number in
decimal, with the same fuel-driven digit loop as the runtime's numeral
printing (`Nat.toDigitsCore` at base 10), so that it is computable by
kernel reduction; `decRep` is the same digit string expressed through
`Nat.digits`, which carries the library theory needed for injectivity. -/

/-- The decimal digit characters (`d < 10` in every use below). -/
def digitChar (d : Nat) : Char :=
  match d with
  | 0 => '0' | 1 => '1' | 2 => '2' | 3 => '3' | 4 => '4'
  | 5 => '5' | 6 => '6' | 7 => '7' | 8 => '8' | 9 => '9'
  | _ => '*'

/-- Fuel-driven decimal printing loop: emit the least-significant digit,
recurse on `n / 10`. The fuel `natKey` supplies always suffices. -/
def natKeyAux : Nat → Nat → List Char → List Char
  | 0, _, acc => acc
  | fuel + 1, n, acc =>
    let d := digitChar (n % 10)
    if n / 10 = 0 then d :: acc else natKeyAux fuel (n / 10) (d :: acc)

/-- The canonical decimal string of a natural number: JavaScript
`String(n)`, and the index keys produced by `Object.keys` on an array. -/
def natKey (n : Nat) : String :=
  String.mk (natKeyAux (n + 1) n [])

/-- The big-endian decimal digit characters of `n`, via `Nat.digits`. -/
def decRep (n : Nat) : List Char :=
  if n = 0 then ['0'] else (Nat.digits 10 n).reverse.map digitChar

theorem natKeyAux_eq (fuel : Nat) :
    ∀ (n : Nat) (acc : List Char), n < fuel → natKeyAux fuel n acc = decRep n ++ acc := by
  induction fuel with
  | zero => intro n acc h; omega
  | succ fuel ih =>
    intro n acc h
    by_cases hdiv : n / 10 = 0
    · have hn : n < 10 := by omega
      have hmod : n % 10 = n := Nat.mod_eq_of_lt hn
      by_cases h0 : n = 0
      · subst h0; simp [natKeyAux, decRep, digitChar]
      · have hdig : Nat.digits 10 n = [n] := by
          rw [Nat.digits_def' (by norm_num : 1 < 10) (Nat.pos_of_ne_zero h0), hmod, hdiv]
          simp
        simp [natKeyAux, hdiv, decRep, h0, hdig, hmod]
    · have hpos : 0 < n := by
        rcases Nat.eq_zero_or_pos n with h0 | h0
        · exact absurd (by simp [h0]) hdiv
        · exact h0
      have hrec : n / 10 < fuel := by
        have : n / 10 < n := Nat.div_lt_self hpos (by norm_num)
        omega
      have hdig : Nat.digits 10 n = n % 10 :: Nat.digits 10 (n / 10) :=
        Nat.digits_def' (by norm_num : 1 < 10) hpos
      have hne : n ≠ 0 := by omega
      have hd2 : decRep n = decRep (n / 10) ++ [digitChar (n % 10)] := by
        simp [decRep, hne, hdiv, hdig]
      rw [natKeyAux, if_neg hdiv, ih _ _ hrec, hd2, List.append_assoc]
      rfl

theorem natKey_eq_decRep (n : Nat) : natKey n = String.mk (decRep n) := by
  rw [natKey, natKeyAux_eq (n + 1) n [] (Nat.lt_succ_self n), List.append_nil]

/-- Every character of a decimal numeral is a decimal digit. -/
theorem decRep_mem_digits {n : Nat} {c : Char} (h : c ∈ decRep n) :
    c ∈ ['0', '1', '2', '3', '4', '5', '6', '7', '8', '9'] := by
  rw [decRep] at h
  split at h
  · simp only [List.mem_singleton] at h
    subst h; decide
  · rw [List.mem_map] at h
    obtain ⟨d, hd, rfl⟩ := h
    have hlt : d < 10 :=
      Nat.digits_lt_base (by norm_num) (List.mem_reverse.mp hd)
    interval_cases d <;> simp [digitChar]

theorem digitChar_inj :
    ∀ d < 10, ∀ e < 10, digitChar d = digitChar e → d = e := by decide

theorem decRep_inj : ∀ {m n : Nat}, decRep m = decRep n → m = n := by
  have key : ∀ {m : Nat}, m ≠ 0 → decRep m = ['0'] → False := by
    intro m hm h
    rw [decRep, if_neg hm] at h
    rcases hdig : Nat.digits 10 m with _ | ⟨d, ds⟩
    · exact (Nat.digits_ne_nil_iff_ne_zero.mpr hm) hdig
    · rw [hdig] at h
      have hlen : ((d :: ds).reverse.map digitChar).length = 1 := by rw [h]; rfl
      simp only [List.length_map, List.length_reverse, List.length_cons] at hlen
      have hds : ds = [] := List.length_eq_zero.mp (by omega)
      subst hds
      simp only [List.reverse_cons, List.reverse_nil, List.nil_append, List.map_cons,
        List.map_nil, List.cons.injEq, and_true] at h
      have hd10 : d < 10 := Nat.digits_lt_base (by norm_num) (by rw [hdig]; exact List.mem_singleton.mpr rfl)
      have hd0 : d = 0 := digitChar_inj d hd10 0 (by norm_num) (by simpa [digitChar] using h)
      subst hd0
      have hm0 := congrArg (Nat.ofDigits 10) hdig
      rw [Nat.ofDigits_digits] at hm0
      simp [Nat.ofDigits] at hm0
      exact hm hm0
  have mapinj : ∀ (l1 l2 : List Nat), (∀ d ∈ l1, d < 10) → (∀ d ∈ l2, d < 10) →
      l1.map digitChar = l2.map digitChar → l1 = l2 := by
    intro l1
    induction l1 with
    | nil => intro l2 _ _ h; cases l2 <;> simp_all
    | cons d l1 ih =>
      intro l2 h1 h2 h
      cases l2 with
      | nil => simp at h
      | cons e l2 =>
        simp only [List.map_cons, List.cons.injEq] at h
        have hd : d = e := digitChar_inj d (h1 d (by simp)) e (h2 e (by simp)) h.1
        have ht : l1 = l2 := ih l2 (fun x hx => h1 x (by simp [hx]))
          (fun x hx => h2 x (by simp [hx])) h.2
        rw [hd, ht]
  intro m n h
  by_cases hm : m = 0 <;> by_cases hn : n = 0
  · rw [hm, hn]
  · exact absurd (key hn (by rw [← h, hm, decRep]; simp)).elim id
  · exact absurd (key hm (by rw [h, hn, decRep]; simp)).elim id
  · rw [decRep, if_neg hm, decRep, if_neg hn] at h
    have h2 := mapinj _ _
      (fun d hd => Nat.digits_lt_base (by norm_num) (List.mem_reverse.mp hd))
      (fun d hd => Nat.digits_lt_base (by norm_num) (List.mem_reverse.mp hd)) h
    have h3 := List.reverse_injective h2
    have := congrArg (Nat.ofDigits 10) h3
    rwa [Nat.ofDigits_digits, Nat.ofDigits_digits] at this

theorem natKey_inj : ∀ {m n : Nat}, natKey m = natKey n → m = n := by
  intro m n h
  rw [natKey_eq_decRep, natKey_eq_decRep] at h
  exact decRep_inj (by injection h)

/-- A natural-number index key never equals a string containing a
non-digit character. -/
theorem natKey_ne {n : Nat} {s : String} {c : Char} (hc : c ∈ s.data)
    (hnd : c ∉ ['0', '1', '2', '3', '4', '5', '6', '7', '8', '9']) :
    natKey n ≠ s := by
  intro h
  rw [natKey_eq_decRep] at h
  have : s.data = decRep n := by rw [← h]
  rw [this] at hc
  exact hnd (decRep_mem_digits hc)

/-! ## JSON value model

`Json` models the JavaScript values produced by `JSON.parse`: `null`,
booleans, numbers, strings, arrays and plain objects (an object is a list
of key/value fields). -/

inductive Json where
  | null : Json
  | bool (b : Bool) : Json
  | num (n : Int) : Json
  | str (s : String) : Json
  | arr (elems : List Json) : Json
  | obj (fields : List (String × Json)) : Json

/-- `isObject(o)` from the migrator: `typeof o === "object" && !!o`.
True exactly on arrays and objects (`typeof null` is `"object"` but `!!null`
is `false`; strings and numbers are not of type `"object"`). -/
def isObject : Json → Bool
  | .arr _ => true
  | .obj _ => true
  | _ => false

/-- The fixed `ignoreKeys` set of the migrator. -/
def ignoreKeys : List String :=
  ["name", "contentUrl", "configurationUrl", "manifestVersion", "$schema", "description"]

/-- Decimal index keys `"0", "1", ...` as produced by `Object.keys` on an
array (or on a string). -/
def indexKeys (n : Nat) : List String :=
  (List.range n).map natKey

/-- `Object.keys`: field names for objects, index strings for arrays and
strings, empty for primitives. -/
def jsKeys : Json → List String
  | .obj fs => fs.map Prod.fst
  | .arr es => indexKeys es.length
  | .str s => indexKeys s.data.length
  | _ => []

/-- Resolve a property key of an array of length `n`: a key resolves to
index `i < n` exactly when it is the canonical decimal string of `i`
(`a["01"]` is `undefined` in JavaScript). -/
def decIndex? (k : String) : Nat → Option Nat
  | 0 => none
  | n + 1 => if natKey n = k then some n else decIndex? k n

/-- JavaScript property access `a[k]`, returning `none` for `undefined`.
On arrays and strings only canonical decimal index strings resolve;
indexing a string yields a one-character string. -/
def jsGet : Json → String → Option Json
  | .obj fs, k => fs.lookup k
  | .arr es, k => (decIndex? k es.length).bind fun i => es[i]?
  | .str s, k =>
    (decIndex? k s.data.length).bind fun i =>
      (s.data[i]?).map fun c => Json.str (String.singleton c)
  | _, _ => none

/-- Strict equality `===` on primitive (non-object) JSON values: `null`,
booleans, numbers and strings compare by value; values of different
primitive types are never strictly equal. -/
def primEq : Json → Json → Bool
  | .null, .null => true
  | .bool x, .bool y => x == y
  | .num x, .num y => x == y
  | .str x, .str y => x == y
  | _, _ => false

/-- Strict equality `aValue === bValue` as used in the `else` branch of the
diff loop, where at least one side is not an object (so reference equality
of two distinct objects never arises): a present JSON value is never
strictly equal to `undefined`; an object is never strictly equal to a
non-object; primitives compare by value. -/
def strictEq : Json → Option Json → Bool
  | _, none => false
  | av, some bv => if isObject av || isObject bv then false else primEq av bv

theorem sizeOf_lookup {fs : List (String × Json)} {k : String} {v : Json}
    (h : fs.lookup k = some v) : sizeOf v < sizeOf fs := by
  induction fs with
  | nil => simp [List.lookup] at h
  | cons p rest ih =>
    rw [List.lookup] at h
    split at h
    · obtain rfl : p.2 = v := by injection h
      rcases p with ⟨k0, v⟩
      simp only [List.cons.sizeOf_spec, Prod.mk.sizeOf_spec]
      omega
    · have := ih h
      simp only [List.cons.sizeOf_spec]
      omega

theorem sizeOf_mem {es : List Json} {v : Json} (h : v ∈ es) : sizeOf v < sizeOf es :=
  List.sizeOf_lt_of_mem h

/-- A property value that is an object is a structural subterm: the basis
of termination for the recursive tree walks below. (A string index access
yields a fresh one-character string, which is never an object.) -/
theorem sizeOf_jsGet {a : Json} {k : String} {v : Json}
    (h : jsGet a k = some v) (hv : isObject v = true) : sizeOf v < sizeOf a := by
  cases a with
  | obj fs =>
    have := sizeOf_lookup (h : fs.lookup k = some v)
    simp only [Json.obj.sizeOf_spec]
    omega
  | arr es =>
    rw [jsGet, Option.bind_eq_some] at h
    obtain ⟨i, _, hi⟩ := h
    have hmem : v ∈ es := by
      have := List.getElem?_eq_some.mp hi
      obtain ⟨hlt, hget⟩ := this
      exact hget ▸ List.getElem_mem hlt
    have := sizeOf_mem hmem
    simp only [Json.arr.sizeOf_spec]
    omega
  | str s =>
    rw [jsGet, Option.bind_eq_some] at h
    obtain ⟨i, _, hi⟩ := h
    rw [Option.map_eq_some'] at hi
    obtain ⟨c, _, rfl⟩ := hi
    simp [isObject] at hv
  | null => simp [jsGet] at h
  | bool b => simp [jsGet] at h
  | num n => simp [jsGet] at h

/-- The structural `diff(a, b)` of the migrator, returning `true` when the
two trees are considered equivalent: compare `Object.keys` lengths, then
iterate the keys of `a`, skipping `ignoreKeys`, recursing when both values
are objects and otherwise requiring strict equality (a key of `a` always
resolves, so the `undefined`-vs-`undefined` fallback of the last line is
never reached). -/
def diff (a b : Json) : Bool :=
  if (jsKeys a).length != (jsKeys b).length then false
  else
    (jsKeys a).all fun key =>
      if key ∈ ignoreKeys then true
      else
        match hga : jsGet a key with
        | some aValue =>
          (match jsGet b key with
           | some bValue =>
             if hob : (isObject aValue && isObject bValue) = true then diff aValue bValue
             else strictEq aValue (some bValue)
           | none => strictEq aValue none)
        | none => (jsGet b key).isNone
termination_by sizeOf a
decreasing_by
  exact sizeOf_jsGet hga (Bool.and_elim_left hob)

/-- The equivalence described by the spec sentence for the structural diff,
word for word: at every level the two trees have the same key set (order
irrelevant) and, for every key not in the ignored set, either both values
are nested objects that are themselves equivalent, or the two scalar
values are strictly equal (arrays contribute their index keys, so they are
compared as index-keyed objects). -/
def claimEquiv (a b : Json) : Prop :=
  (∀ k, k ∈ jsKeys a ↔ k ∈ jsKeys b) ∧
  ∀ key ∈ jsKeys a, key ∉ ignoreKeys →
    ∀ av, (hget : jsGet a key = some av) →
      ∃ bv, jsGet b key = some bv ∧
        (if hob : isObject av = true ∧ isObject bv = true then claimEquiv av bv
         else isObject av = false ∧ isObject bv = false ∧ av = bv)
termination_by sizeOf a
decreasing_by
  exact sizeOf_jsGet hget hob.1

/-- The amended equivalence: as `claimEquiv`, but requiring only that the
two trees have the same number of keys and that every non-ignored key of
the first tree resolves in the second, rather than equality of the two key
sets. -/
def amendedEquiv (a b : Json) : Prop :=
  (jsKeys a).length = (jsKeys b).length ∧
  ∀ key ∈ jsKeys a, key ∉ ignoreKeys →
    ∀ av, (hget : jsGet a key = some av) →
      ∃ bv, jsGet b key = some bv ∧
        (if hob : isObject av = true ∧ isObject bv = true then amendedEquiv av bv
         else isObject av = false ∧ isObject bv = false ∧ av = bv)
termination_by sizeOf a
decreasing_by
  exact sizeOf_jsGet hget hob.1

theorem mem_indexKeys {k : String} {n : Nat} :
    k ∈ indexKeys n ↔ ∃ i, i < n ∧ natKey i = k := by
  simp [indexKeys]

theorem decIndex?_natKey {i n : Nat} (h : i < n) : decIndex? (natKey i) n = some i := by
  induction n with
  | zero => omega
  | succ n ih =>
    by_cases he : n = i
    · subst he; simp [decIndex?]
    · have hlt : i < n := by omega
      rw [decIndex?, if_neg (fun hk => he (natKey_inj hk)), ih hlt]

theorem decIndex?_eq_some {k : String} {n i : Nat} (h : decIndex? k n = some i) :
    natKey i = k ∧ i < n := by
  induction n with
  | zero => simp [decIndex?] at h
  | succ n ih =>
    rw [decIndex?] at h
    split at h
    · obtain rfl : n = i := by injection h
      exact ⟨by assumption, Nat.lt_succ_self n⟩
    · obtain ⟨h1, h2⟩ := ih h
      exact ⟨h1, by omega⟩

theorem jsGet_arr {es : List Json} {i : Nat} (h : i < es.length) :
    jsGet (Json.arr es) (natKey i) = some (es.get ⟨i, h⟩) := by
  rw [jsGet, decIndex?_natKey h]
  simp [List.getElem?_eq_getElem h]

theorem jsGet_str {s : String} {i : Nat} (h : i < s.data.length) :
    jsGet (Json.str s) (natKey i) =
      some (Json.str (String.singleton (s.data.get ⟨i, h⟩))) := by
  rw [jsGet, decIndex?_natKey h]
  simp [List.getElem?_eq_getElem h]

theorem lookup_of_mem_fst {fs : List (String × Json)} {k : String}
    (h : k ∈ fs.map Prod.fst) : ∃ v, fs.lookup k = some v := by
  induction fs with
  | nil => simp at h
  | cons p rest ih =>
    obtain ⟨k1, v1⟩ := p
    by_cases he : k = k1
    · exact ⟨v1, by simp [List.lookup, he]⟩
    · have hr : k ∈ rest.map Prod.fst := by
        rcases List.mem_map.mp h with ⟨q, hq, rfl⟩
        rcases List.mem_cons.mp hq with rfl | hq2
        · exact absurd rfl he
        · exact List.mem_map.mpr ⟨q, hq2, rfl⟩
      rcases ih hr with ⟨v, hv⟩
      exact ⟨v, by simpa [List.lookup, beq_false_of_ne he] using hv⟩

/-- Every key reported by `Object.keys` resolves to a value. -/
theorem jsGet_of_mem_keys {a : Json} {k : String} (h : k ∈ jsKeys a) :
    ∃ v, jsGet a k = some v := by
  cases a with
  | obj fs =>
    rw [jsKeys] at h
    simpa [jsGet] using lookup_of_mem_fst h
  | arr es =>
    rw [jsKeys, mem_indexKeys] at h
    obtain ⟨i, hi, rfl⟩ := h
    exact ⟨es.get ⟨i, hi⟩, jsGet_arr hi⟩
  | str s =>
    rw [jsKeys, mem_indexKeys] at h
    obtain ⟨i, hi, rfl⟩ := h
    exact ⟨Json.str (String.singleton (s.data.get ⟨i, hi⟩)), jsGet_str hi⟩
  | null => simp [jsKeys] at h
  | bool b => simp [jsKeys] at h
  | num n => simp [jsKeys] at h

theorem primEq_iff {a b : Json} (ha : isObject a = false) (hb : isObject b = false) :
    primEq a b = true ↔ a = b := by
  cases a <;> cases b <;> simp_all [primEq, isObject]

theorem strictEq_none (v : Json) : strictEq v none = false := rfl

theorem diff_iff_amended_aux :
    ∀ N, ∀ a b : Json, sizeOf a < N → (diff a b = true ↔ amendedEquiv a b) := by
  intro N
  induction N with
  | zero => intro a b h; omega
  | succ N ih =>
    intro a b hsz
    rw [diff, amendedEquiv]
    by_cases hlen : (jsKeys a).length = (jsKeys b).length
    · rw [if_neg (by simpa using hlen), List.all_eq_true]
      constructor
      · intro hall
        refine ⟨hlen, ?_⟩
        intro key hk hig av hav
        have hb := hall key hk
        simp only at hb
        rw [if_neg hig] at hb
        split at hb
        · rename_i aValue hveq
          rw [show aValue = av by rw [hav] at hveq; exact (Option.some.inj hveq).symm] at hb
          split at hb
          · rename_i bv heqb
            refine ⟨bv, heqb, ?_⟩
            by_cases hoo : isObject av = true ∧ isObject bv = true
            · rw [dif_pos hoo]
              rw [dif_pos (by rw [Bool.and_eq_true]; exact hoo)] at hb
              have hlt : sizeOf av < N := by
                have := sizeOf_jsGet hav hoo.1
                omega
              exact (ih av bv hlt).mp hb
            · rw [dif_neg hoo]
              rw [dif_neg (by rw [Bool.and_eq_true]; exact hoo)] at hb
              simp only [strictEq] at hb
              split at hb
              · cases hb
              · rename_i hor
                rw [Bool.or_eq_true] at hor
                push_neg at hor
                have h1 : isObject av = false := by
                  cases hx : isObject av
                  · rfl
                  · exact absurd hx hor.1
                have h2 : isObject bv = false := by
                  cases hx : isObject bv
                  · rfl
                  · exact absurd hx hor.2
                exact ⟨h1, h2, (primEq_iff h1 h2).mp hb⟩
          · simp [strictEq_none] at hb
        · rename_i heq
          rw [hav] at heq
          cases heq
      · rintro ⟨-, hfor⟩
        intro key hk
        by_cases hig : key ∈ ignoreKeys
        · rw [if_pos hig]
        · rw [if_neg hig]
          obtain ⟨av, hav⟩ := jsGet_of_mem_keys hk
          obtain ⟨bv, hjb, hcond⟩ := hfor key hk hig av hav
          rw [hav, hjb]
          show (if hob : (isObject av && isObject bv) = true then diff av bv
                else strictEq av (some bv)) = true
          by_cases hoo : isObject av = true ∧ isObject bv = true
          · rw [dif_pos (by rw [Bool.and_eq_true]; exact hoo)]
            rw [dif_pos hoo] at hcond
            have hlt : sizeOf av < N := by
              have := sizeOf_jsGet hav hoo.1
              omega
            exact (ih av bv hlt).mpr hcond
          · rw [dif_neg (by rw [Bool.and_eq_true]; exact hoo)]
            rw [dif_neg hoo] at hcond
            obtain ⟨h1, h2, h3⟩ := hcond
            simp [strictEq, h1, h2]
            exact (primEq_iff h1 h2).mpr h3
    · rw [if_pos (by simpa using hlen)]
      simp only [Bool.false_eq_true, false_iff]
      rintro ⟨h1, -⟩
      exact hlen h1

/-- `diff` is equivalent to the amended declarative characterization. -/
theorem diff_iff_amendedEquiv (a b : Json) : diff a b = true ↔ amendedEquiv a b :=
  diff_iff_amended_aux (sizeOf a + 1) a b (Nat.lt_succ_self _)

/-- Decimal index keys are never in the ignored-key set. -/
theorem natKey_not_ignored (n : Nat) : natKey n ∉ ignoreKeys := by
  intro h
  simp only [ignoreKeys, List.mem_cons, List.mem_singleton, List.not_mem_nil, or_false] at h
  rcases h with h | h | h | h | h | h
  · exact natKey_ne (s := "name") (c := 'n') (by decide) (by decide) h
  · exact natKey_ne (s := "contentUrl") (c := 'c') (by decide) (by decide) h
  · exact natKey_ne (s := "configurationUrl") (c := 'c') (by decide) (by decide) h
  · exact natKey_ne (s := "manifestVersion") (c := 'm') (by decide) (by decide) h
  · exact natKey_ne (s := "$schema") (c := '$') (by decide) (by decide) h
  · exact natKey_ne (s := "description") (c := 'd') (by decide) (by decide) h

theorem length_indexKeys (n : Nat) : (indexKeys n).length = n := by
  simp [indexKeys]

/-- Reordering an array of scalar (non-object) elements in a way that
changes the element sequence always makes `diff` report a difference:
arrays are compared as index-keyed objects and no index key is ignored. -/
theorem diff_arr_perm_ne (es es2 : List Json) (hperm : es.Perm es2)
    (hnodup : es.Nodup) (hsc : ∀ v ∈ es, isObject v = false) (hne : es ≠ es2) :
    diff (Json.arr es) (Json.arr es2) = false := by
  cases hd : diff (Json.arr es) (Json.arr es2)
  · rfl
  · exfalso
    have ham := (diff_iff_amendedEquiv _ _).mp hd
    rw [amendedEquiv] at ham
    obtain ⟨hlen, hkey⟩ := ham
    have hlen2 : es.length = es2.length := hperm.length_eq
    refine hne (List.ext_getElem hlen2 ?_)
    intro i hi hi2
    have hmem : natKey i ∈ jsKeys (Json.arr es) := by
      rw [jsKeys, mem_indexKeys]
      exact ⟨i, hi, rfl⟩
    have hget : jsGet (Json.arr es) (natKey i) = some (es.get ⟨i, hi⟩) := jsGet_arr hi
    obtain ⟨bv, hjb, hcond⟩ := hkey (natKey i) hmem (natKey_not_ignored i) _ hget
    have hbv : bv = es2.get ⟨i, hi2⟩ := by
      rw [jsGet_arr hi2] at hjb
      exact (Option.some.inj hjb).symm
    have hobj : isObject (es.get ⟨i, hi⟩) = false := hsc _ (es.get_mem _ _)
    rw [dif_neg (fun hx => by rw [hobj] at hx; exact Bool.false_ne_true hx.1)] at hcond
    obtain ⟨-, -, h3⟩ := hcond
    simpa [hbv] using h3

/-- A tree equivalent to another under the amended characterization as soon
as the key counts agree and every key of the first tree is ignored. -/
theorem amendedEquiv_of_ignored {a b : Json}
    (hlen : (jsKeys a).length = (jsKeys b).length)
    (hig : ∀ k ∈ jsKeys a, k ∈ ignoreKeys) : amendedEquiv a b := by
  rw [amendedEquiv]
  exact ⟨hlen, fun key hk hnig => absurd (hig key hk) hnig⟩

/-- C3: The structural diff returns true on two JSON trees if and only if
at every level they have the same number of keys and, for every key of the
first tree not in the fixed ignored set (name, contentUrl,
configurationUrl, manifestVersion, $schema, description), the key resolves
in the second tree and either both values are nested objects that are
themselves equivalent, or the two scalar values are strictly equal; arrays
are compared as index-keyed objects, so reordering an array of distinct
scalar elements makes the trees differ. -/
theorem diff_structural_characterization :
    (∀ a b : Json, diff a b = true ↔ amendedEquiv a b) ∧
    (∀ es es2 : List Json, es.Perm es2 → es.Nodup →
      (∀ v ∈ es, isObject v = false) → es ≠ es2 →
      diff (Json.arr es) (Json.arr es2) = false) :=
  ⟨diff_iff_amendedEquiv, diff_arr_perm_ne⟩

/-- Witness for C3: swapping the two distinct scalar elements of
`[1, 2]` yields trees that `diff` reports as different. -/
theorem diff_structural_characterization_witness :
    diff (Json.arr [Json.num 1, Json.num 2]) (Json.arr [Json.num 2, Json.num 1]) = false :=
  diff_structural_characterization.2 [Json.num 1, Json.num 2] [Json.num 2, Json.num 1]
    (List.Perm.swap (Json.num 2) (Json.num 1) [])
    (by simp)
    (by intro v hv; rcases List.mem_cons.mp hv with rfl | hv2
        · rfl
        · rcases List.mem_singleton.mp hv2 with rfl; rfl)
    (by simp)

/-- Counterexample to C3 as stated. First part: `diff` returns true on two
one-field objects whose key sets differ (`name` versus `description`, both
ignored keys), refuting the claimed same-key-set characterization. Second
part: `diff` returns true on an array of two distinct object elements and
its reversal (the elements differ only in the ignored `description` key),
refuting the claim that reordering an array of distinct elements always
makes the trees differ. -/
theorem diff_claim_counterexample :
    (diff (Json.obj [("name", Json.num 1)]) (Json.obj [("description", Json.num 2)]) = true ∧
      ¬ claimEquiv (Json.obj [("name", Json.num 1)]) (Json.obj [("description", Json.num 2)])) ∧
    (diff
        (Json.arr [Json.obj [("description", Json.num 1)], Json.obj [("description", Json.num 2)]])
        (Json.arr [Json.obj [("description", Json.num 2)], Json.obj [("description", Json.num 1)]])
        = true ∧
      Json.obj [("description", Json.num 1)] ≠ Json.obj [("description", Json.num 2)] ∧
      ([Json.obj [("description", Json.num 1)], Json.obj [("description", Json.num 2)]] :
          List Json).Perm
        [Json.obj [("description", Json.num 2)], Json.obj [("description", Json.num 1)]] ∧
      ([Json.obj [("description", Json.num 1)], Json.obj [("description", Json.num 2)]] :
          List Json) ≠
        [Json.obj [("description", Json.num 2)], Json.obj [("description", Json.num 1)]]) := by
  refine ⟨⟨?_, ?_⟩, ?_, ?_, ?_, ?_⟩
  · exact (diff_iff_amendedEquiv _ _).mpr
      (amendedEquiv_of_ignored rfl (by intro k hk; simp [jsKeys] at hk; subst hk; decide))
  · intro h
    rw [claimEquiv] at h
    have h1 : "name" ∈ jsKeys (Json.obj [("name", Json.num 1)]) := by simp [jsKeys]
    have h2 := (h.1 "name").mp h1
    simp [jsKeys] at h2
  · refine (diff_iff_amendedEquiv _ _).mpr ?_
    rw [amendedEquiv]
    refine ⟨rfl, ?_⟩
    intro key hk hig av hget
    rw [jsKeys, mem_indexKeys] at hk
    obtain ⟨i, hi, rfl⟩ := hk
    have hi2 : i < 2 := by simpa using hi
    interval_cases i
    · rw [jsGet_arr (by norm_num)] at hget
      obtain rfl : av = Json.obj [("description", Json.num 1)] := (Option.some.inj hget).symm
      refine ⟨Json.obj [("description", Json.num 2)], jsGet_arr (by norm_num), ?_⟩
      rw [dif_pos ⟨rfl, rfl⟩]
      exact amendedEquiv_of_ignored rfl
        (by intro k hk; simp [jsKeys] at hk; subst hk; decide)
    · rw [jsGet_arr (by norm_num)] at hget
      obtain rfl : av = Json.obj [("description", Json.num 2)] := (Option.some.inj hget).symm
      refine ⟨Json.obj [("description", Json.num 1)], jsGet_arr (by norm_num), ?_⟩
      rw [dif_pos ⟨rfl, rfl⟩]
      exact amendedEquiv_of_ignored rfl
        (by intro k hk; simp [jsKeys] at hk; subst hk; decide)
  · intro h
    have := Json.obj.inj h
    simp at this
  · exact List.Perm.swap _ _ _
  · intro h
    have := List.cons.inj h
    simp at this

/-! ## Filesystem model

Paths are the segment lists that `path.join` builds; a filesystem is the
finite collection of regular files, each carrying its content as a string.
A directory exists exactly when some file lies underneath it, matching the
semantics of `fs.pathExists` on the layouts the migrator handles. -/

abbrev FsPath := List String

/-- `segPre d p`: the path `d` is a (non-strict) ancestor-or-self of `p`. -/
def segPre : FsPath → FsPath → Bool
  | [], _ => true
  | _ :: _, [] => false
  | a :: as, b :: bs => a == b && segPre as bs

structure FS where
  files : List (FsPath × String)

/-- Read the content of the regular file at `p`. -/
def FS.read? (fs : FS) (p : FsPath) : Option String :=
  fs.files.lookup p

/-- `fs.pathExists(p)`: a file sits at `p` or somewhere below it. -/
def FS.pathExists (fs : FS) (p : FsPath) : Bool :=
  fs.files.any fun e => segPre p e.1

/-- `fs.writeFile(p, c)` (also `fs-extra.outputFile`): create or overwrite
the regular file at `p`. -/
def FS.write (fs : FS) (p : FsPath) (c : String) : FS :=
  ⟨(p, c) :: fs.files.filter fun e => !(e.1 == p)⟩

/-- `fs.remove(p)`: delete the file or directory tree at `p` (a no-op when
nothing is there). -/
def FS.remove (fs : FS) (p : FsPath) : FS :=
  ⟨fs.files.filter fun e => !(segPre p e.1)⟩

/-- Rebase a path below `src` to the corresponding path below `dst`. -/
def rebase (src dst : FsPath) (p : FsPath) : FsPath :=
  dst ++ p.drop src.length

/-- `fs.copy(src, dst, overwrite)` / `fs.copyFile`: recursively copy the
file or directory tree at `src` over `dst`, overwriting files of the same
name and keeping unrelated files already below `dst`. -/
def FS.copy (fs : FS) (src dst : FsPath) : FS :=
  ⟨((fs.files.filter fun e => segPre src e.1).map fun e => (rebase src dst e.1, e.2)) ++
    fs.files⟩

theorem segPre_refl (p : FsPath) : segPre p p = true := by
  induction p with
  | nil => rfl
  | cons a as ih => simp [segPre, ih]

theorem segPre_append (p q : FsPath) : segPre p (p ++ q) = true := by
  induction p with
  | nil => rfl
  | cons a as ih => simp [segPre, ih]

theorem segPre_iff {p q : FsPath} : segPre p q = true ↔ ∃ r, q = p ++ r := by
  constructor
  · intro h
    induction p generalizing q with
    | nil => exact ⟨q, rfl⟩
    | cons a as ih =>
      cases q with
      | nil => simp [segPre] at h
      | cons b bs =>
        rw [segPre, Bool.and_eq_true, beq_iff_eq] at h
        obtain ⟨rfl, h2⟩ := h
        obtain ⟨r, rfl⟩ := ih h2
        exact ⟨r, rfl⟩
  · rintro ⟨r, rfl⟩
    exact segPre_append p r

theorem segPre_cancel (pp a b : FsPath) : segPre (pp ++ a) (pp ++ b) = segPre a b := by
  induction pp with
  | nil => rfl
  | cons x xs ih => simp [segPre, ih]

/-- Two ancestors of the same path are comparable. -/
theorem segPre_total {p q w : FsPath} (hp : segPre p w = true) (hq : segPre q w = true) :
    segPre p q = true ∨ segPre q p = true := by
  induction w generalizing p q with
  | nil =>
    cases p with
    | nil => exact Or.inl rfl
    | cons a as => simp [segPre] at hp
  | cons c cs ih =>
    cases p with
    | nil => exact Or.inl rfl
    | cons a as =>
      cases q with
      | nil => exact Or.inr rfl
      | cons b bs =>
        rw [segPre, Bool.and_eq_true, beq_iff_eq] at hp hq
        obtain ⟨rfl, hp2⟩ := hp
        obtain ⟨rfl, hq2⟩ := hq
        rcases ih hp2 hq2 with h | h
        · exact Or.inl (by simp [segPre, h])
        · exact Or.inr (by simp [segPre, h])

theorem lookup_cons_self {c1 : String} (rest : List (FsPath × String)) (q : FsPath) :
    List.lookup q ((q, c1) :: rest) = some c1 := by
  simp [List.lookup]

theorem lookup_cons_ne {p1 q : FsPath} (c1 : String) (rest : List (FsPath × String))
    (h : q ≠ p1) : List.lookup q ((p1, c1) :: rest) = List.lookup q rest := by
  simp [List.lookup, beq_false_of_ne h]

theorem lookup_none_of {l : List (FsPath × String)} {q : FsPath}
    (h : ∀ e ∈ l, e.1 ≠ q) : l.lookup q = none := by
  induction l with
  | nil => rfl
  | cons e rest ih =>
    obtain ⟨p1, c1⟩ := e
    rw [lookup_cons_ne _ _ fun hc => (h (p1, c1) (by simp)) hc.symm]
    exact ih fun e he => h e (by simp [he])

theorem lookup_filter (files : List (FsPath × String)) (q : FsPath) (keep : FsPath → Bool) :
    (files.filter fun e => keep e.1).lookup q =
      if keep q then files.lookup q else none := by
  induction files with
  | nil => simp
  | cons e rest ih =>
    obtain ⟨p1, c1⟩ := e
    by_cases hq : q = p1
    · subst hq
      by_cases hk : keep q
      · rw [List.filter_cons_of_pos (by simpa using hk), lookup_cons_self, if_pos hk,
          lookup_cons_self]
      · rw [List.filter_cons_of_neg (by simpa using hk), ih, if_neg hk, if_neg hk]
    · by_cases hk : keep p1
      · rw [List.filter_cons_of_pos (by simpa using hk), lookup_cons_ne _ _ hq, ih,
          lookup_cons_ne _ _ hq]
      · rw [List.filter_cons_of_neg (by simpa using hk), ih, lookup_cons_ne _ _ hq]

theorem read?_write_self (fs : FS) (p : FsPath) (c : String) :
    (fs.write p c).read? p = some c := by
  rw [FS.write, FS.read?, lookup_cons_self]

theorem read?_write_ne (fs : FS) {p q : FsPath} (c : String) (h : q ≠ p) :
    (fs.write p c).read? q = fs.read? q := by
  rw [FS.write, FS.read?, lookup_cons_ne _ _ h,
    lookup_filter fs.files q (fun x => !(x == p))]
  rw [if_pos (by simpa using h)]
  rfl

theorem read?_remove (fs : FS) (p q : FsPath) :
    (fs.remove p).read? q = if segPre p q then none else fs.read? q := by
  simp only [FS.remove, FS.read?]
  rw [lookup_filter fs.files q (fun x => !(segPre p x))]
  by_cases h : segPre p q
  · rw [if_neg (by simpa using h), if_pos h]
  · rw [if_pos (by simpa using h), if_neg h]

theorem pathExists_write (fs : FS) (p q : FsPath) (c : String) :
    (fs.write p c).pathExists q = (segPre q p || fs.pathExists q) := by
  rw [FS.write, FS.pathExists, FS.pathExists, List.any_cons]
  induction fs.files with
  | nil => simp
  | cons e rest ih =>
    by_cases he : e.1 = p
    · rw [List.filter_cons_of_neg (by simpa using he), List.any_cons, he]
      cases hqp : segPre q p <;> simp_all
    · rw [List.filter_cons_of_pos (by simpa using he), List.any_cons, List.any_cons]
      cases hqe : segPre q e.1 <;> cases hqp : segPre q p <;> simp_all

theorem segPre_trans {p q w : FsPath} (h1 : segPre p q = true) (h2 : segPre q w = true) :
    segPre p w = true := by
  obtain ⟨r, rfl⟩ := segPre_iff.mp h1
  obtain ⟨t, rfl⟩ := segPre_iff.mp h2
  rw [List.append_assoc]
  exact segPre_append p (r ++ t)

theorem pathExists_remove_of_under (fs : FS) {p q : FsPath} (h : segPre p q = true) :
    (fs.remove p).pathExists q = false := by
  rw [FS.remove, FS.pathExists]
  rw [List.any_eq_false]
  intro e he
  rw [List.mem_filter] at he
  intro hq
  have := segPre_trans h hq
  simp_all

theorem pathExists_remove_disjoint (fs : FS) {p q : FsPath}
    (h1 : segPre p q = false) (h2 : segPre q p = false) :
    (fs.remove p).pathExists q = fs.pathExists q := by
  rw [FS.remove, FS.pathExists, FS.pathExists]
  induction fs.files with
  | nil => rfl
  | cons e rest ih =>
    by_cases he : segPre p e.1
    · rw [List.filter_cons_of_neg (by simpa using he), List.any_cons, ih]
      have hqe : segPre q e.1 = false := by
        cases hx : segPre q e.1
        · rfl
        · rcases segPre_total (p := p) (q := q) (by simpa using he) hx with h | h
          · simp_all
          · simp_all
      rw [hqe]
      simp
    · rw [List.filter_cons_of_pos (by simpa using he), List.any_cons, List.any_cons, ih]

theorem rebase_append (src dst q : FsPath) : rebase src dst (src ++ q) = dst ++ q := by
  rw [rebase]
  congr 1
  have := List.drop_left src q
  simpa using this

theorem lookup_map_rebase (src dst q : FsPath) :
    ∀ (l : List (FsPath × String)), (∀ e ∈ l, segPre src e.1 = true) →
      (l.map fun e => (rebase src dst e.1, e.2)).lookup (dst ++ q) = l.lookup (src ++ q) := by
  intro l
  induction l with
  | nil => intro _; rfl
  | cons e rest ih =>
    intro hall
    obtain ⟨w, cw⟩ := e
    obtain ⟨t, rfl⟩ := segPre_iff.mp (hall (w, cw) (by simp))
    rw [List.map_cons, rebase_append]
    by_cases ht : q = t
    · subst ht
      rw [lookup_cons_self, lookup_cons_self]
    · rw [lookup_cons_ne _ _ fun hc => ht (List.append_cancel_left hc),
        lookup_cons_ne _ _ fun hc => ht (List.append_cancel_left hc)]
      exact ih fun e he => hall e (by simp [he])

theorem lookup_append_str (l1 l2 : List (FsPath × String)) (q : FsPath) :
    (l1 ++ l2).lookup q = ((l1.lookup q).orElse fun _ => l2.lookup q) := by
  induction l1 with
  | nil => rfl
  | cons e rest ih =>
    obtain ⟨p1, c1⟩ := e
    by_cases hq : q = p1
    · subst hq
      rw [List.cons_append, lookup_cons_self, lookup_cons_self]
      rfl
    · rw [List.cons_append, lookup_cons_ne _ _ hq, lookup_cons_ne _ _ hq, ih]

/-- Reading a path below the copy destination sees the corresponding
source file when there is one and otherwise whatever was there before. -/
theorem read?_copy_dst (fs : FS) (src dst q : FsPath) :
    (fs.copy src dst).read? (dst ++ q) =
      match fs.read? (src ++ q) with
      | some c => some c
      | none => fs.read? (dst ++ q) := by
  rw [FS.copy, FS.read?, lookup_append_str]
  rw [lookup_map_rebase src dst q _ (by
    intro e he
    rw [List.mem_filter] at he
    exact he.2)]
  rw [lookup_filter fs.files (src ++ q) (fun x => segPre src x), if_pos (segPre_append src q)]
  cases hsrc : fs.read? (src ++ q) with
  | none =>
    have hsrc2 : List.lookup (src ++ q) fs.files = none := hsrc
    rw [hsrc2]
    rfl
  | some c =>
    have hsrc2 : List.lookup (src ++ q) fs.files = some c := hsrc
    rw [hsrc2]
    rfl

theorem read?_copy_not_dst (fs : FS) {src dst : FsPath} (q : FsPath)
    (h : segPre dst q = false) :
    (fs.copy src dst).read? q = fs.read? q := by
  rw [FS.copy, FS.read?, lookup_append_str]
  have hnone : (((fs.files.filter fun e => segPre src e.1).map
      fun e => (rebase src dst e.1, e.2)).lookup q) = none := by
    apply lookup_none_of
    intro e hmem
    rw [List.mem_map] at hmem
    obtain ⟨e0, he0, heq⟩ := hmem
    rw [List.mem_filter] at he0
    obtain ⟨t, hsrc⟩ := segPre_iff.mp he0.2
    intro hk
    rw [← heq] at hk
    simp only at hk
    rw [hsrc, rebase_append] at hk
    rw [← hk, segPre_append] at h
    cases h
  rw [hnone]
  rfl

theorem pathExists_copy_disjoint (fs : FS) {src dst q : FsPath}
    (h1 : segPre dst q = false) (h2 : segPre q dst = false) :
    (fs.copy src dst).pathExists q = fs.pathExists q := by
  rw [FS.copy, FS.pathExists, FS.pathExists, List.any_append]
  have hfalse : ((fs.files.filter fun e => segPre src e.1).map
      fun e => (rebase src dst e.1, e.2)).any (fun e => segPre q e.1) = false := by
    rw [List.any_eq_false]
    intro e hmem
    rw [List.mem_map] at hmem
    obtain ⟨e0, he0, heq⟩ := hmem
    rw [List.mem_filter] at he0
    obtain ⟨t, hsrc⟩ := segPre_iff.mp he0.2
    intro hq
    have hdw : segPre dst e.1 = true := by
      rw [← heq]
      simp only
      rw [hsrc, rebase_append]
      exact segPre_append dst t
    rcases segPre_total hq hdw with h | h
    · simp_all
    · simp_all
  rw [hfalse]
  simp

/-! ## Platform, inputs and errors -/

inductive Platform where
  | vscode
  | cli
  deriving DecidableEq

structure Inputs where
  projectPath : Option FsPath
  platform : Platform

inductive FxError where
  | consolidateCanceled : FxError
  | error (code : String) : FxError
  deriving DecidableEq

/-! ## Detector (`needConsolidateLocalRemote`)

`isConfigUnifyEnabled` is the feature flag read from the environment
(`common/tools`); it enters as the `configUnifyEnabled` argument. -/

def needConsolidateLocalRemote (configUnifyEnabled : Bool) (inputs : Inputs) (fs : FS) :
    Bool :=
  if !configUnifyEnabled then false
  else
    match inputs.projectPath with
    | none => false
    | some pp =>
      if !(fs.pathExists (pp ++ [".fx"])) then false
      else if !(fs.pathExists (pp ++ ["templates", "appPackage", "manifest.template.json"]))
        then true
      else false

/-- C2: the Detector returns true iff the unified-config flag is enabled,
the inputs carry a project path, the legacy `.fx` marker folder exists and
the unified manifest template does not yet exist; consequently it returns
false for every project without the marker folder, and false for every
project where the unified manifest template is already present. -/
theorem needConsolidate_spec :
    (∀ (flag : Bool) (inputs : Inputs) (fs : FS),
      needConsolidateLocalRemote flag inputs fs = true ↔
        (flag = true ∧ ∃ pp, inputs.projectPath = some pp ∧
          fs.pathExists (pp ++ [".fx"]) = true ∧
          fs.pathExists (pp ++ ["templates", "appPackage", "manifest.template.json"]) =
            false)) ∧
    (∀ (flag : Bool) (inputs : Inputs) (fs : FS) (pp : FsPath),
      inputs.projectPath = some pp → fs.pathExists (pp ++ [".fx"]) = false →
      needConsolidateLocalRemote flag inputs fs = false) ∧
    (∀ (flag : Bool) (inputs : Inputs) (fs : FS) (pp : FsPath),
      inputs.projectPath = some pp →
      fs.pathExists (pp ++ ["templates", "appPackage", "manifest.template.json"]) = true →
      needConsolidateLocalRemote flag inputs fs = false) := by
  refine ⟨?_, ?_, ?_⟩
  · intro flag inputs fs
    obtain ⟨pp?, plat⟩ := inputs
    cases pp? with
    | none => cases flag <;> simp [needConsolidateLocalRemote]
    | some pp =>
      cases flag
      · simp [needConsolidateLocalRemote]
      · by_cases h1 : fs.pathExists (pp ++ [".fx"]) <;>
          by_cases h2 :
            fs.pathExists (pp ++ ["templates", "appPackage", "manifest.template.json"]) <;>
          simp_all [needConsolidateLocalRemote]
  · intro flag inputs fs pp hpp h1
    obtain ⟨pp?, plat⟩ := inputs
    simp only at hpp
    subst hpp
    cases flag <;> simp [needConsolidateLocalRemote, h1]
  · intro flag inputs fs pp hpp h2
    obtain ⟨pp?, plat⟩ := inputs
    simp only at hpp
    subst hpp
    cases flag <;>
      by_cases h1 : fs.pathExists (pp ++ [".fx"]) <;>
      simp_all [needConsolidateLocalRemote]

/-- Witness for C2: a project consisting of a single marker file under
`.fx` with the flag on is detected; the same filesystem without the
marker is not. -/
theorem needConsolidate_spec_witness :
    needConsolidateLocalRemote true
      ⟨some ["proj"], Platform.cli⟩ ⟨[(["proj", ".fx", "env.default.json"], "cfg")]⟩ = true ∧
    needConsolidateLocalRemote true ⟨some ["proj"], Platform.cli⟩ ⟨[]⟩ = false := by
  constructor
  · exact (needConsolidate_spec.1 true ⟨some ["proj"], Platform.cli⟩
      ⟨[(["proj", ".fx", "env.default.json"], "cfg")]⟩).mpr
      ⟨rfl, ["proj"], rfl, by decide, by decide⟩
  · exact needConsolidate_spec.2.1 true ⟨some ["proj"], Platform.cli⟩ ⟨[]⟩ ["proj"] rfl
      (by decide)

/-! ## The `checkMethod` single-flight guard -/

/-- The fixed allow-list `methods`. -/
def methods : List String := ["getProjectConfig", "checkPermission"]

/-- Truthiness-and-membership test `ctx.method && methods.has(ctx.method)`
(equivalently `ctx.method != undefined && methods.has(ctx.method)`: the
empty string is falsy but is also not in the allow-list). -/
def isAllowListed : Option String → Bool
  | some m => methods.contains m
  | none => false

/-- `checkMethod(ctx)` over the module-level `userCancelFlag` latch:
returns the call result and the new value of the latch (the latch is left
untouched on the early-return path). -/
def checkMethod (method : Option String) (userCancelFlag : Bool) : Bool × Bool :=
  if isAllowListed method && userCancelFlag then (false, userCancelFlag)
  else (true, isAllowListed method)

/-- C8: for every two consecutive calls whose methods are in the
allow-list, whatever the initial latch value, the second call returns
false, so the consent prompt is not fired again while the first
intercepted call is pending. -/
theorem checkMethod_single_flight (m1 m2 : Option String) (f0 : Bool)
    (h1 : isAllowListed m1 = true) (h2 : isAllowListed m2 = true) :
    (checkMethod m2 (checkMethod m1 f0).2).1 = false := by
  cases f0 <;> simp [checkMethod, h1, h2]

/-- Witness for C8: a `getProjectConfig` call followed by a
`checkPermission` call, starting from a cleared latch. -/
theorem checkMethod_single_flight_witness :
    isAllowListed (some "getProjectConfig") = true ∧
    isAllowListed (some "checkPermission") = true ∧
    (checkMethod (some "checkPermission")
      (checkMethod (some "getProjectConfig") false).2).1 = false :=
  ⟨by decide, by decide,
    checkMethod_single_flight (some "getProjectConfig") (some "checkPermission") false
      (by decide) (by decide)⟩

/-! ## The interactive consent gate (`upgrade`) -/

def upgradeButton : String := "Upgrade"

def learnMore : String := "Learn More"

def learnMoreLink : String := "https://aka.ms/teamsfx-unify-config-guide"

/-- The warnings printed by `outputCancelMessage`: a common line plus
platform-specific guidance (VS Code versus CLI wording). -/
def outputCancelMessage (platform : Platform) : List String :=
  "[core] Upgrade cancelled." ::
    (match platform with
     | .vscode =>
       ["[core] Notice upgrade to new configuration files is a must-have to continue to use current version Teams Toolkit. If you are not ready to upgrade and want to continue to use the old version Teams Toolkit, please find Teams Toolkit in Extension and install the version <= 3.7.0"]
     | .cli =>
       ["[core] Notice upgrade to new configuration files is a must-have to continue to use current version Teams Toolkit CLI. If you want to upgrade, please trigger this command again.",
        "[core] If you are not ready to upgrade and want to continue to use the old version Teams Toolkit CLI, please install the version <= 3.7.0"])

/-- The do/while consent loop of `upgrade`: `answers` are the successive
results of `showMessage` (`none` models a dismissed or unanswered prompt,
and an exhausted list behaves as no response). Every `"Learn More"` answer
opens the documentation link and re-presents the prompt. Returns the
number of `openUrl` invocations and the answer that ended the loop. -/
def promptLoop : List (Option String) → Nat × Option String
  | [] => (0, none)
  | ans :: rest =>
    if ans = some learnMore then
      let r := promptLoop rest
      (r.1 + 1, r.2)
    else (0, ans)

structure GateResult where
  openUrlCount : Nat
  ctxError : Option FxError
  proceeded : Bool
  guidance : List String
  fs : FS

/-- The consent gate of `upgrade` up to the point where the Transformer
would run: any final answer other than the `Upgrade` button (dismissal,
no response, or any other action) sets the typed cancellation error,
prints the platform guidance, and leaves the filesystem untouched. -/
def upgrade (answers : List (Option String)) (platform : Platform) (fs : FS) : GateResult :=
  let r := promptLoop answers
  match r.2 with
  | some a =>
    if a ≠ upgradeButton then
      { openUrlCount := r.1, ctxError := some FxError.consolidateCanceled, proceeded := false,
        guidance := outputCancelMessage platform, fs := fs }
    else
      { openUrlCount := r.1, ctxError := none, proceeded := true, guidance := [], fs := fs }
  | none =>
    { openUrlCount := r.1, ctxError := some FxError.consolidateCanceled, proceeded := false,
      guidance := outputCancelMessage platform, fs := fs }

/-- C5: every `"Learn More"` answer invokes `openUrl` once more and
re-presents the prompt; every other non-`"Upgrade"` answer ends the loop
with the typed consolidate-cancellation error, the platform-specific
guidance, no proceed, and an unchanged filesystem; in particular the
sequence Learn More, Learn More, cancel invokes `openUrl` exactly twice,
leaves the filesystem unchanged and returns the cancellation error. -/
theorem upgrade_consent_spec :
    (∀ (rest : List (Option String)) (p : Platform) (fs : FS),
      upgrade (some learnMore :: rest) p fs =
        { upgrade rest p fs with openUrlCount := (upgrade rest p fs).openUrlCount + 1 }) ∧
    (∀ (ans : Option String) (rest : List (Option String)) (p : Platform) (fs : FS),
      ans ≠ some learnMore → ans ≠ some upgradeButton →
      upgrade (ans :: rest) p fs =
        { openUrlCount := 0, ctxError := some FxError.consolidateCanceled, proceeded := false,
          guidance := outputCancelMessage p, fs := fs }) ∧
    (∀ (p : Platform) (fs : FS),
      upgrade [some learnMore, some learnMore, none] p fs =
        { openUrlCount := 2, ctxError := some FxError.consolidateCanceled, proceeded := false,
          guidance := outputCancelMessage p, fs := fs }) := by
  refine ⟨?_, ?_, ?_⟩
  · intro rest p fs
    rw [upgrade, upgrade, promptLoop, if_pos rfl]
    rcases hr : promptLoop rest with ⟨n, ans⟩
    rcases ans with _ | a
    · rfl
    · by_cases ha : a = upgradeButton
      · simp only [ha]
        rfl
      · simp only []
        rw [if_pos (by simpa using ha), if_pos (by simpa using ha)]
  · intro ans rest p fs h1 h2
    rw [upgrade, promptLoop, if_neg h1]
    rcases ans with _ | a
    · rfl
    · simp only []
      rw [if_pos (by simpa using fun hc : a = upgradeButton => h2 (by rw [hc]))]
  · intro p fs
    have hp : promptLoop [some learnMore, some learnMore, none] = (2, none) := rfl
    rw [upgrade, hp]

/-- Witness for C5: a dismissed prompt cancels immediately with the typed
error, no `openUrl` call and no filesystem change. -/
theorem upgrade_consent_spec_witness :
    upgrade [none] Platform.cli ⟨[]⟩ =
      { openUrlCount := 0, ctxError := some FxError.consolidateCanceled, proceeded := false,
        guidance := outputCancelMessage Platform.cli, fs := ⟨[]⟩ } :=
  upgrade_consent_spec.2.1 none [] Platform.cli ⟨[]⟩ (by simp) (by simp)

/-! ## SPFx component-id extraction and manifest rewrite

`componentIdRegex` is `(?<=componentId=)([a-z0-9-]*)(?=%26)`. Because `%`
is not in the character class, a match exists at a position exactly when
the text before it ends with `componentId=` and the maximal run of
`[a-z0-9-]` starting there is followed by `%26`; `exec` returns the
leftmost such run. `findCidAux` is that scan. -/

/-- Boolean prefix test on character lists. -/
def charsPre : List Char → List Char → Bool
  | [], _ => true
  | _ :: _, [] => false
  | a :: as, b :: bs => a == b && charsPre as bs

/-- The regex character class `[a-z0-9-]`. -/
def isCidChar (c : Char) : Bool :=
  (decide ('a' ≤ c) && decide (c ≤ 'z')) || (decide ('0' ≤ c) && decide (c ≤ '9')) || c == '-'

def componentIdMark : List Char := "componentId=".data

def pct26 : List Char := "%26".data

/-- Scan for the leftmost regex match: `done` is the reversed text before
the current position, `rest` the text from it. At each position test the
lookbehind (`componentId=` just before) and the lookahead (`%26` right
after the maximal `[a-z0-9-]` run); on success the run is the match. -/
def findCidAux (done rest : List Char) : Option (List Char) :=
  if charsPre componentIdMark.reverse done && charsPre pct26 (rest.dropWhile isCidChar) then
    some (rest.takeWhile isCidChar)
  else
    match rest with
    | [] => none
    | c :: rest2 => findCidAux (c :: done) rest2
termination_by rest.length

/-- `replaceSPFxComponentId(content)`: the first regex match, or the empty
string when the pattern does not match. -/
def replaceSPFxComponentId (content : String) : String :=
  match findCidAux [] content.data with
  | some run => String.mk run
  | none => ""

/-- Substitute the first `%s` slot of a format string. -/
def subst1 : List Char → List Char → List Char
  | '%' :: 's' :: rest, repl => repl ++ rest
  | c :: rest, _repl => c :: subst1 rest _repl
  | [], _ => []

/-- `util.format(template, a, b)` for a template with two `%s` slots, in
the regime the migrator uses it (substituted component ids never contain
`%`, so the second scan never sees a slot inside the first replacement). -/
def format2 (template a b : String) : String :=
  String.mk (subst1 (subst1 template.data a.data) b.data)

/-- Modelled from the spec: `ManifestTemplate.REMOTE_CONTENT_URL` from the
SPFx plugin constants (that file is not under src/); per the spec it is a
fixed URL template into which the extracted component identifier is
substituted twice. The exact literal is irrelevant to all properties
proved here. -/
def REMOTE_CONTENT_URL : String :=
  "https://spfx.invalid/teamshostedapp.aspx?componentId=%s&forward=%s"

/-- Modelled from the spec: `ManifestTemplate.REMOTE_CONFIGURATION_URL`
(same provenance as `REMOTE_CONTENT_URL`). -/
def REMOTE_CONFIGURATION_URL : String :=
  "https://spfx.invalid/teamshostedapp.aspx?config=true&componentId=%s&forward=%s"

structure StaticTab where
  entityId : Option String
  contentUrl : Option String

structure ConfigurableTab where
  configurationUrl : Option String

structure TeamsAppManifest where
  staticTabs : Option (List StaticTab)
  configurableTabs : Option (List ConfigurableTab)

/-- JavaScript coercion to string of a possibly-undefined value, as it
reaches `regex.exec` and `util.format`. -/
def jsStr : Option String → String
  | some s => s
  | none => "undefined"

/-- JavaScript truthiness of a possibly-undefined string. -/
def jsTruthy : Option String → Bool
  | some s => !(s == "")
  | none => false

/-- One iteration of the static-tab loop: `componentId = item.entityId`;
if `(item.contentUrl && componentId === undefined) || componentId === ""`,
extract the id from the existing content URL; then overwrite the tab's
`contentUrl` with the remote template formatted with the id twice.
Returns the updated `componentId` (it persists into the configurable-tab
loop) together with the updated tab. -/
def rewriteStaticTab (item : StaticTab) : Option String × StaticTab :=
  let cid1 := item.entityId
  let cid2 :=
    if (jsTruthy item.contentUrl && cid1 == none) || cid1 == some "" then
      some (replaceSPFxComponentId (jsStr item.contentUrl))
    else cid1
  (cid2, { item with contentUrl := some (format2 REMOTE_CONTENT_URL (jsStr cid2) (jsStr cid2)) })

def rewriteStaticTabs (cid0 : Option String) : List StaticTab → Option String × List StaticTab
  | [] => (cid0, [])
  | item :: rest =>
    let r1 := rewriteStaticTab item
    let r2 := rewriteStaticTabs r1.1 rest
    (r2.1, r1.2 :: r2.2)

/-- One iteration of the configurable-tab loop (no `entityId` assignment
here: the `componentId` carried over from the static-tab loop is reused
unless it is undefined or empty). -/
def rewriteConfigTab (cid : Option String) (item : ConfigurableTab) :
    Option String × ConfigurableTab :=
  let cid2 :=
    if (jsTruthy item.configurationUrl && cid == none) || cid == some "" then
      some (replaceSPFxComponentId (jsStr item.configurationUrl))
    else cid
  (cid2,
    { item with
      configurationUrl := some (format2 REMOTE_CONFIGURATION_URL (jsStr cid2) (jsStr cid2)) })

def rewriteConfigTabs (cid0 : Option String) :
    List ConfigurableTab → Option String × List ConfigurableTab
  | [] => (cid0, [])
  | item :: rest =>
    let r1 := rewriteConfigTab cid0 item
    let r2 := rewriteConfigTabs r1.1 rest
    (r2.1, r1.2 :: r2.2)

/-- The SPFx branch of Transformer step 2: rewrite every static tab's
content URL and every configurable tab's configuration URL (each loop
guarded by presence and non-emptiness of the tab array). -/
def rewriteSPFxManifest (m : TeamsAppManifest) : TeamsAppManifest :=
  let cid0 : Option String := some ""
  let r1 :=
    match m.staticTabs with
    | some tabs =>
      if tabs.length > 0 then
        let r := rewriteStaticTabs cid0 tabs
        (r.1, some r.2)
      else (cid0, m.staticTabs)
    | none => (cid0, m.staticTabs)
  let ct :=
    match m.configurableTabs with
    | some tabs =>
      if tabs.length > 0 then some (rewriteConfigTabs r1.1 tabs).2
      else m.configurableTabs
    | none => m.configurableTabs
  { m with staticTabs := r1.2, configurableTabs := ct }

theorem charsPre_iff {p q : List Char} : charsPre p q = true ↔ ∃ r, q = p ++ r := by
  constructor
  · intro h
    induction p generalizing q with
    | nil => exact ⟨q, rfl⟩
    | cons a as ih =>
      cases q with
      | nil => simp [charsPre] at h
      | cons b bs =>
        rw [charsPre, Bool.and_eq_true, beq_iff_eq] at h
        obtain ⟨rfl, h2⟩ := h
        obtain ⟨r, rfl⟩ := ih h2
        exact ⟨r, rfl⟩
  · rintro ⟨r, rfl⟩
    induction p with
    | nil => rfl
    | cons a as ih => simp [charsPre, ih]

theorem takeWhile_run {p : Char → Bool} :
    ∀ (run rest : List Char), (∀ c ∈ run, p c = true) →
      (∀ c, rest.head? = some c → p c = false) →
      (run ++ rest).takeWhile p = run ∧ (run ++ rest).dropWhile p = rest := by
  intro run
  induction run with
  | nil =>
    intro rest _ hrest
    cases rest with
    | nil => exact ⟨rfl, rfl⟩
    | cons c rest2 =>
      have := hrest c rfl
      constructor
      · rw [List.nil_append, List.takeWhile_cons, this]
        simp
      · rw [List.nil_append, List.dropWhile_cons, this]
        simp
  | cons a run ih =>
    intro rest hrun hrest
    have ha : p a = true := hrun a (by simp)
    obtain ⟨h1, h2⟩ := ih rest (fun c hc => hrun c (by simp [hc])) hrest
    constructor
    · rw [List.cons_append, List.takeWhile_cons, ha, h1]
      simp
    · rw [List.cons_append, List.dropWhile_cons, ha, h2]
      simp

theorem findCidAux_found (pre run post : List Char)
    (hrun : ∀ c ∈ run, isCidChar c = true)
    (huniq : ∀ x y,
      pre ++ componentIdMark ++ run ++ pct26 ++ post = x ++ componentIdMark ++ y → x = pre) :
    ∀ (r d : List Char),
      d.reverse ++ r = pre ++ componentIdMark ++ run ++ pct26 ++ post →
      (run ++ pct26 ++ post).length ≤ r.length →
      findCidAux d r = some run := by
  intro r
  induction r with
  | nil =>
    intro d hfull hlen
    simp [pct26] at hlen
  | cons c r2 ih =>
    intro d hfull hlen
    by_cases hpos : (c :: r2).length = (run ++ pct26 ++ post).length
    · have hsplit : d.reverse = pre ++ componentIdMark ∧ c :: r2 = run ++ (pct26 ++ post) := by
        have heq : d.reverse ++ c :: r2 =
            (pre ++ componentIdMark) ++ (run ++ (pct26 ++ post)) := by
          rw [hfull]
          simp [List.append_assoc]
        have := List.append_inj' heq (by
          rw [hpos]
          simp [List.append_assoc])
        exact this
      have hcond1 : charsPre componentIdMark.reverse d = true := by
        rw [charsPre_iff]
        refine ⟨pre.reverse, ?_⟩
        have := congrArg List.reverse hsplit.1
        rw [List.reverse_reverse, List.reverse_append] at this
        exact this
      have htd := takeWhile_run (p := isCidChar) run (pct26 ++ post) hrun (by
        intro ch hch
        have hc : pct26 ++ post = '%' :: ("26".data ++ post) := rfl
        rw [hc] at hch
        simp only [List.head?] at hch
        obtain rfl : ch = '%' := (Option.some.inj hch).symm
        decide)
      rw [findCidAux, hsplit.2, if_pos (by
        rw [Bool.and_eq_true]
        refine ⟨hcond1, ?_⟩
        rw [htd.2]
        exact charsPre_iff.mpr ⟨post, by simp⟩)]
      rw [htd.1]
    · have hgt : (run ++ pct26 ++ post).length < (c :: r2).length := by
        rcases Nat.lt_or_ge (run ++ pct26 ++ post).length (c :: r2).length with h | h
        · exact h
        · exact absurd (Nat.le_antisymm hlen h).symm hpos
      have hcond1 : charsPre componentIdMark.reverse d = false := by
        cases hx : charsPre componentIdMark.reverse d
        · rfl
        · exfalso
          obtain ⟨t, ht⟩ := charsPre_iff.mp hx
          have hdrev : d.reverse = t.reverse ++ componentIdMark := by
            rw [ht, List.reverse_append, List.reverse_reverse]
          have hx2 := huniq t.reverse (c :: r2) (by rw [← hfull, hdrev, List.append_assoc])
          have hlend : d.reverse.length = pre.length + componentIdMark.length := by
            rw [hdrev, hx2]
            simp [Nat.add_comm]
          have hfl := congrArg List.length hfull
          have hgt2 := hgt
          simp only [List.length_append, List.length_reverse, List.length_cons]
            at hfl hlend hgt2
          omega
      rw [findCidAux, if_neg (by rw [hcond1]; simp)]
      exact ih (c :: d) (by rw [← hfull]; simp) (by
        have := hgt
        simp only [List.length_cons] at this
        omega)

theorem findCidAux_none :
    ∀ (r d : List Char), (∀ x y, d.reverse ++ r ≠ x ++ componentIdMark ++ y) →
      findCidAux d r = none := by
  intro r
  induction r with
  | nil =>
    intro d hno
    rw [findCidAux, if_neg ?_]
    cases hx : charsPre componentIdMark.reverse d
    · simp
    · exfalso
      obtain ⟨t, ht⟩ := charsPre_iff.mp hx
      refine hno t.reverse [] ?_
      rw [ht, List.reverse_append, List.reverse_reverse]
  | cons c r2 ih =>
    intro d hno
    rw [findCidAux, if_neg ?_]
    · exact ih (c :: d) (by
        intro x y
        rw [List.reverse_cons, List.append_assoc]
        exact hno x y)
    · cases hx : charsPre componentIdMark.reverse d
      · simp
      · exfalso
        obtain ⟨t, ht⟩ := charsPre_iff.mp hx
        refine hno t.reverse (c :: r2) ?_
        rw [ht, List.reverse_append, List.reverse_reverse]

/-- The number of positions of `l` at which `componentIdMark` occurs. -/
def markOccurrences (l : List Char) : Nat :=
  ((List.range (l.length + 1)).filter fun i => charsPre componentIdMark (l.drop i)).length

/-- When the marker occurs at exactly one position, any split of the text
around the marker is the canonical one. -/
theorem unique_of_markOccurrences_one {pre rest : List Char}
    (h1 : markOccurrences (pre ++ componentIdMark ++ rest) = 1) :
    ∀ x y, pre ++ componentIdMark ++ rest = x ++ componentIdMark ++ y → x = pre := by
  intro x y hxy
  set full := pre ++ componentIdMark ++ rest with hfull
  have hmem : ∀ z w, full = z ++ componentIdMark ++ w →
      z.length ∈ (List.range (full.length + 1)).filter
        fun i => charsPre componentIdMark (full.drop i) := by
    intro z w hzw
    rw [List.mem_filter, List.mem_range]
    constructor
    · have := congrArg List.length hzw
      simp only [List.length_append] at this
      omega
    · rw [hzw, List.append_assoc, List.drop_left]
      exact charsPre_iff.mpr ⟨w, rfl⟩
  have hx := hmem x y hxy
  have hp := hmem pre rest rfl
  rw [markOccurrences] at h1
  obtain ⟨a, ha⟩ := List.length_eq_one.mp h1
  rw [ha, List.mem_singleton] at hx hp
  have hlen : x.length = pre.length := by rw [hx, hp]
  have hx2 : x = full.take x.length := by
    rw [hxy, List.append_assoc, List.take_left]
  have hp2 : pre = full.take pre.length := by
    rw [hfull, List.append_assoc, List.take_left]
  calc x = full.take x.length := hx2
    _ = full.take pre.length := by rw [hlen]
    _ = pre := hp2.symm

/-- The regex extraction on a content URL that embeds
`componentId=<run>%26` at a unique marker position yields the run. -/
theorem replaceSPFx_extracts (pre run post : List Char)
    (hrun : ∀ c ∈ run, isCidChar c = true)
    (huniq : ∀ x y,
      pre ++ componentIdMark ++ run ++ pct26 ++ post = x ++ componentIdMark ++ y → x = pre) :
    replaceSPFxComponentId
      (String.mk (pre ++ componentIdMark ++ run ++ pct26 ++ post)) = String.mk run := by
  rw [replaceSPFxComponentId]
  rw [show (String.mk (pre ++ componentIdMark ++ run ++ pct26 ++ post)).data
      = pre ++ componentIdMark ++ run ++ pct26 ++ post from rfl]
  rw [findCidAux_found pre run post hrun huniq
    (pre ++ componentIdMark ++ run ++ pct26 ++ post) [] (by simp)
    (by simp only [List.length_append]; omega)]

/-- The regex extraction falls back to the empty string when
`componentId=` does not occur in the content at all. -/
theorem replaceSPFx_no_match (content : String)
    (h : ∀ x y, content.data ≠ x ++ componentIdMark ++ y) :
    replaceSPFxComponentId content = "" := by
  rw [replaceSPFxComponentId, findCidAux_none content.data [] (by simpa using h)]

/-- C4 (amended): for a SPFx remote manifest with one static tab, the
component identifier substituted twice into the fixed remote content-URL
template is (a) the run extracted by the pattern match from the existing
content URL when the tab's `entityId` is undefined or the empty string,
(b) the tab's `entityId` itself whenever that is a nonempty string, and
(c) the empty string as fallback when extraction applies but the pattern
does not match. -/
theorem spfx_componentId_rewrite :
    (∀ (eid : Option String) (u : String) (pre run post : List Char),
      (eid = none ∨ eid = some "") →
      u.data = pre ++ componentIdMark ++ run ++ pct26 ++ post →
      (∀ c ∈ run, isCidChar c = true) →
      (∀ x y,
        pre ++ componentIdMark ++ run ++ pct26 ++ post = x ++ componentIdMark ++ y → x = pre) →
      rewriteSPFxManifest ⟨some [⟨eid, some u⟩], none⟩ =
        ⟨some [⟨eid,
          some (format2 REMOTE_CONTENT_URL (String.mk run) (String.mk run))⟩], none⟩) ∧
    (∀ (e : String) (cu : Option String), e ≠ "" →
      rewriteSPFxManifest ⟨some [⟨some e, cu⟩], none⟩ =
        ⟨some [⟨some e, some (format2 REMOTE_CONTENT_URL e e)⟩], none⟩) ∧
    (∀ (u : String), u ≠ "" →
      (∀ x y, u.data ≠ x ++ componentIdMark ++ y) →
      rewriteSPFxManifest ⟨some [⟨none, some u⟩], none⟩ =
        ⟨some [⟨none, some (format2 REMOTE_CONTENT_URL "" "")⟩], none⟩) := by
  have step : ∀ (eid : Option String) (u : Option String),
      rewriteSPFxManifest ⟨some [⟨eid, u⟩], none⟩ =
        ⟨some [(rewriteStaticTab ⟨eid, u⟩).2], none⟩ := by
    intro eid u
    rfl
  refine ⟨?_, ?_, ?_⟩
  · intro eid u pre run post heid hud hrun huniq
    have hne : u ≠ "" := by
      intro h
      rw [h] at hud
      have h2 : ([] : List Char) = pre ++ componentIdMark ++ run ++ pct26 ++ post := hud
      have hm : componentIdMark.length = 12 := rfl
      have := congrArg List.length h2
      simp only [List.length_nil, List.length_append, hm] at this
      omega
    have hrep : replaceSPFxComponentId u = String.mk run := by
      rw [replaceSPFxComponentId, hud,
        findCidAux_found pre run post hrun huniq _ [] (by simp)
          (by simp only [List.length_append]; omega)]
    rw [step]
    rcases heid with rfl | rfl
    · rw [rewriteStaticTab]
      simp only [jsTruthy, beq_false_of_ne hne, jsStr]
      rw [if_pos (by simp), hrep]
    · rw [rewriteStaticTab]
      rw [if_pos (by simp), jsStr, hrep]
      rfl
  · intro e cu he
    rw [step, rewriteStaticTab]
    rw [if_neg (by simp [beq_false_of_ne he]), jsStr]
  · intro u hne hnomark
    have hrep : replaceSPFxComponentId u = "" := replaceSPFx_no_match u hnomark
    rw [step, rewriteStaticTab]
    simp only [jsTruthy, beq_false_of_ne hne, jsStr]
    rw [if_pos (by simp), hrep]

/-- Counterexample to C4 as stated: a SPFx static tab whose `contentUrl`
embeds `componentId=abc123%26...` (the extraction would indeed yield
`abc123`) but whose `entityId` is the nonempty string `xyz` is rewritten
with `xyz` substituted into the template, not `abc123`, so the claim that
the identifier is extracted from the URL for every such project is false. -/
theorem spfx_claim_counterexample :
    (rewriteSPFxManifest
        ⟨some [⟨some "xyz", some "https://old.example/page?componentId=abc123%26rest"⟩],
          none⟩).staticTabs =
      some [⟨some "xyz", some (format2 REMOTE_CONTENT_URL "xyz" "xyz")⟩] ∧
    replaceSPFxComponentId "https://old.example/page?componentId=abc123%26rest" = "abc123" ∧
    format2 REMOTE_CONTENT_URL "xyz" "xyz" ≠ format2 REMOTE_CONTENT_URL "abc123" "abc123" := by
  refine ⟨?_, ?_, ?_⟩
  · rfl
  · have hsplit : ("https://old.example/page?componentId=abc123%26rest").data =
        "https://old.example/page?".data ++ componentIdMark ++ "abc123".data ++ pct26 ++
          "rest".data := rfl
    have hocc : markOccurrences ("https://old.example/page?".data ++ componentIdMark ++
        ("abc123".data ++ pct26 ++ "rest".data)) = 1 := by decide
    have huniq : ∀ x y,
        "https://old.example/page?".data ++ componentIdMark ++ "abc123".data ++ pct26 ++
            "rest".data = x ++ componentIdMark ++ y →
          x = "https://old.example/page?".data := by
      intro x y h
      refine unique_of_markOccurrences_one hocc x y ?_
      rw [← h]
      simp [List.append_assoc]
    have := replaceSPFx_extracts "https://old.example/page?".data "abc123".data "rest".data
      (by decide) huniq
    rw [show ("https://old.example/page?componentId=abc123%26rest" : String) =
      String.mk ("https://old.example/page?".data ++ componentIdMark ++ "abc123".data ++
        pct26 ++ "rest".data) from rfl]
    rw [this]
  · decide

/-- Witness for C4: the extraction branch on a tab with undefined
`entityId` and a content URL embedding `componentId=abc123%26`. -/
theorem spfx_componentId_rewrite_witness :
    rewriteSPFxManifest
        ⟨some [⟨none, some "https://old.example/page?componentId=abc123%26rest"⟩], none⟩ =
      ⟨some [⟨none, some (format2 REMOTE_CONTENT_URL "abc123" "abc123")⟩], none⟩ := by
  have hocc : markOccurrences ("https://old.example/page?".data ++ componentIdMark ++
      ("abc123".data ++ pct26 ++ "rest".data)) = 1 := by decide
  have h := spfx_componentId_rewrite.1 none
    "https://old.example/page?componentId=abc123%26rest"
    "https://old.example/page?".data "abc123".data "rest".data (Or.inl rfl) rfl (by decide)
    (by
      intro x y hxy
      refine unique_of_markOccurrences_one hocc x y ?_
      rw [← hxy]
      simp [List.append_assoc])
  rw [h]

/-! ## The Transformer (`consolidateLocalRemote`)

The run is embedded with explicit crash injection: every awaited
filesystem mutation consumes one unit of `budget`; when the budget is
exhausted the operation raises (carrying the state at the raise), which
the catch handler of the source rolls back and rethrows. An exception at
a read or a parse leaves the filesystem exactly as it was after the last
mutation, so every exception point of the source is state-equivalent to
some crash budget. External helpers that live outside src/ are modelled
from the spec and marked as such. -/

structure ProjectSettings where
  appName : String
  isSPFx : Bool

structure RunState where
  fs : FS
  fileList : List FsPath
  removeMap : List (FsPath × FsPath)
  moveFiles : String
  warnings : List String
  telemetry : List String

def backupFolder : String := ".backup"

def upgradeReportName : String := "unify-config-change-logs.md"

def envConfigPath (pp : FsPath) : FsPath := pp ++ [".fx", "configs", "env.local.json"]

def localSettingsFile (pp : FsPath) : FsPath := pp ++ [".fx", "configs", "localSettings.json"]

def remoteManifestFile (pp : FsPath) : FsPath :=
  pp ++ ["templates", "appPackage", "manifest.remote.template.json"]

def localManifestFile (pp : FsPath) : FsPath :=
  pp ++ ["templates", "appPackage", "manifest.local.template.json"]

def backupPath (pp : FsPath) : FsPath := pp ++ [backupFolder]

/-- Modelled from the spec: `getManifestTemplatePath` (appstudio
`manifestTemplate`, not under src/) — the unified manifest template's
expected location `templates/appPackage/manifest.template.json`, the same
path the Detector probes and the glossary's unified manifest. -/
def manifestTemplatePath (pp : FsPath) : FsPath :=
  pp ++ ["templates", "appPackage", "manifest.template.json"]

/-- The literal path the source pushes onto FileList after step 2:
`templates/appPackage/template.manifest.json` (note the transposed file
name, which is not the path the unified manifest was written to). -/
def fileListManifestPath (pp : FsPath) : FsPath :=
  pp ++ ["templates", "appPackage", "template.manifest.json"]

/-- Modelled from the spec: `getLocalAppName` (appstudio utils, not under
src/) — a local app name derived from the project's app name. -/
def getLocalAppName (appName : String) : String := appName ++ "-local-debug"

/-- Modelled from the spec: `environmentManager.newEnvConfigData`
(not under src/) — the local environment configuration record derived
from the sanitized app name, as serialized into the env config file. -/
def newEnvConfigData (appName : String) : String := "localEnvConfig:" ++ appName

/-- Split a character list at newlines. -/
def splitLines : List Char → List (List Char)
  | [] => [[]]
  | c :: rest =>
    match splitLines rest with
    | [] => [[]]
    | line :: more => if c = '\n' then [] :: line :: more else (c :: line) :: more

def renderPath (p : FsPath) : String := String.intercalate "/" p

/-- Modelled from the spec: `addPathToGitignore` (projectMigrator, not
under src/) — append the entry to the project ignore file unless a line
equal to it is already present (an idempotent add). -/
def addPathToGitignore (pp : FsPath) (entry : String) (fs : FS) : FS :=
  let gi := pp ++ [".gitignore"]
  let content := (fs.read? gi).getD ""
  if entry.data ∈ splitLines content.data then fs
  else fs.write gi (content ++ entry ++ "\n")

/-- Modelled from the spec: `getResourceFolder` — the toolkit resource
folder holding the bundled upgrade-report file. -/
def resourceFolder : FsPath := ["resource"]

structure CompareOut where
  warned : Bool
  telemetryError : Bool

/-- `compareLocalAndRemoteManifest`: read both manifest templates, strip
the handlebars placeholders and `JSON.parse` (`parseJson` is that
composition; `none` models a parse failure), then structurally `diff`; a
warning is shown when the trees differ, and any failure inside the try
block is caught, sent as a telemetry error event and swallowed. -/
def compareLocalAndRemoteManifest (parseJson : String → Option Json)
    (localContent remoteContent : String) : CompareOut :=
  match parseJson localContent, parseJson remoteContent with
  | some lj, some rj => ⟨!(diff lj rj), false⟩
  | _, _ => ⟨false, true⟩

/-- The run monad: an uncaught exception carries the state at the raise. -/
abbrev RunM := Except RunState

/-- One awaited filesystem mutation under crash injection. -/
def fsOp (f : FS → FS) : Nat × RunState → RunM (Nat × RunState)
  | (0, s) => .error s
  | (b + 1, s) => .ok (b, { s with fs := f s.fs })

structure RunResult where
  result : Except FxError Bool
  ctxError : Option FxError
  fs : FS
  fileList : List FsPath
  removeMap : List (FsPath × FsPath)
  moveFiles : String
  warnings : List String
  telemetry : List String

/-- The catch handler of `consolidateLocalRemote`: copy every RemoveMap
entry's backup back over its original path (in insertion order), delete
every FileList entry, delete the backup folder. -/
def rollbackFS (removeMap : List (FsPath × FsPath)) (fileList : List FsPath)
    (bk : FsPath) (fs : FS) : FS :=
  let fs1 := removeMap.foldl (fun acc e => acc.copy e.1 e.2) fs
  let fs2 := fileList.foldl (fun acc p => acc.remove p) fs1
  fs2.remove bk

/-- Step 2 of the Transformer (source lines 194-248): if the remote
manifest template exists, either rewrite it as an SPFx manifest or
byte-copy it to the unified manifest template path. -/
def addManifestStep (parseManifest : String → TeamsAppManifest)
    (serializeManifest : TeamsAppManifest → String) (isSPFx : Bool) (pp : FsPath)
    (st : Nat × RunState) : RunM (Nat × RunState) :=
  if st.2.fs.pathExists (remoteManifestFile pp) then
    if isSPFx then
      fsOp (fun fs =>
        let manifestString := (fs.read? (remoteManifestFile pp)).getD ""
        let manifest := rewriteSPFxManifest (parseManifest manifestString)
        fs.write (manifestTemplatePath pp) (serializeManifest manifest)) st
    else
      fsOp (fun fs => fs.copy (remoteManifestFile pp) (manifestTemplatePath pp)) st
  else pure st

/-- Step 3 of the Transformer (source lines 260-272): back up
localSettings.json, remove the original, record the move. -/
def backupLocalSettingsStep (pp : FsPath) (st : Nat × RunState) : RunM (Nat × RunState) :=
  if st.2.fs.pathExists (localSettingsFile pp) then
    fsOp (fun fs =>
      fs.copy (localSettingsFile pp)
        (backupPath pp ++ [".fx", "configs", "localSettings.json"])) st >>= fun st =>
    fsOp (fun fs => fs.remove (localSettingsFile pp)) st >>= fun st =>
    pure (st.1, { st.2 with
      moveFiles := st.2.moveFiles ++ "localSettings.json,",
      removeMap := st.2.removeMap ++
        [(backupPath pp ++ [".fx", "configs", "localSettings.json"],
          localSettingsFile pp)] })
  else pure st

/-- Step 4 of the Transformer (source lines 279-281): compare local and
remote manifest templates when both exist; only warnings and telemetry
are affected, and failures are swallowed inside the comparison. -/
def compareManifestsUpd (parseJson : String → Option Json) (pp : FsPath)
    (st : Nat × RunState) : Nat × RunState :=
  if st.2.fs.pathExists (localManifestFile pp) && st.2.fs.pathExists (remoteManifestFile pp)
  then
    let cmp := compareLocalAndRemoteManifest parseJson
      ((st.2.fs.read? (localManifestFile pp)).getD "")
      ((st.2.fs.read? (remoteManifestFile pp)).getD "")
    (st.1, { st.2 with
      warnings := st.2.warnings ++
        (if cmp.warned then ["core.consolidateLocalRemote.DifferentManifest"] else []),
      telemetry := st.2.telemetry ++
        (if cmp.telemetryError then ["ProjectConsolidateCheckManifestError"] else []) })
  else st

/-- Step 5 of the Transformer (source lines 282-294): back up the local
manifest template, remove the original, record the move. -/
def backupLocalManifestStep (pp : FsPath) (st : Nat × RunState) : RunM (Nat × RunState) :=
  if st.2.fs.pathExists (localManifestFile pp) then
    fsOp (fun fs =>
      fs.copy (localManifestFile pp)
        (backupPath pp ++ ["templates", "appPackage", "manifest.local.template.json"])) st >>=
      fun st =>
    fsOp (fun fs => fs.remove (localManifestFile pp)) st >>= fun st =>
    pure (st.1, { st.2 with
      moveFiles := st.2.moveFiles ++ "manifest.local.template.json,",
      removeMap := st.2.removeMap ++
        [(backupPath pp ++ ["templates", "appPackage", "manifest.local.template.json"],
          localManifestFile pp)] })
  else pure st

/-- Step 6 of the Transformer (source lines 295-307): back up the remote
manifest template, remove the original, record the move. -/
def backupRemoteManifestStep (pp : FsPath) (st : Nat × RunState) : RunM (Nat × RunState) :=
  if st.2.fs.pathExists (remoteManifestFile pp) then
    fsOp (fun fs =>
      fs.copy (remoteManifestFile pp)
        (backupPath pp ++ ["templates", "appPackage", "manifest.remote.template.json"])) st >>=
      fun st =>
    fsOp (fun fs => fs.remove (remoteManifestFile pp)) st >>= fun st =>
    pure (st.1, { st.2 with
      moveFiles := st.2.moveFiles ++ "manifest.remote.template.json,",
      removeMap := st.2.removeMap ++
        [(backupPath pp ++ ["templates", "appPackage", "manifest.remote.template.json"],
          remoteManifestFile pp)] })
  else pure st

/-- `postConsolidate` while still inside the try block: the three
ignore-file updates and the closing messages. -/
def postConsolidateStep (pp : FsPath) (platform : Platform) (st : Nat × RunState) :
    RunM (Nat × RunState) :=
  fsOp (addPathToGitignore pp (renderPath pp ++ "/.fx/configs/config.local.json")) st >>=
    fun st =>
  fsOp (addPathToGitignore pp (renderPath pp ++ "/.fx/states/state.local.json")) st >>=
    fun st =>
  fsOp (addPathToGitignore pp (renderPath pp ++ "/" ++ backupFolder)) st >>= fun st =>
  pure (st.1, { st.2 with warnings := st.2.warnings ++
    (if st.2.moveFiles.length > 0 then
      ["[core] Upgrade success! Old " ++ (st.2.moveFiles.dropRight 1) ++
        " have been backed up to the .backup folder and you can delete it."]
     else []) ++
    (if platform ≠ Platform.vscode then ["core.consolidateLocalRemote.SuccessMessage"]
     else []) })

/-- Steps 5-6 and `postConsolidate` of the forward pass. -/
def consolidateTail (pp : FsPath) (platform : Platform) (st0 : Nat × RunState) :
    RunM (Nat × RunState) :=
  backupLocalManifestStep pp st0 >>= fun st =>
  backupRemoteManifestStep pp st >>= fun st =>
  postConsolidateStep pp platform st

/-- The forward pass of `consolidateLocalRemote` (steps 1-6 and the
in-try `postConsolidate`), with crash injection. -/
def consolidateBody (parseJson : String → Option Json)
    (parseManifest : String → TeamsAppManifest)
    (serializeManifest : TeamsAppManifest → String)
    (projectSettings : ProjectSettings) (pp : FsPath) (platform : Platform)
    (budget : Nat) (s0 : RunState) : RunM (Nat × RunState) :=
  fsOp (fun fs => fs.write (envConfigPath pp)
      (newEnvConfigData (getLocalAppName projectSettings.appName))) (budget, s0) >>= fun st =>
  addManifestStep parseManifest serializeManifest projectSettings.isSPFx pp
      (st.1, { st.2 with fileList := st.2.fileList ++ [envConfigPath pp] }) >>= fun st =>
  backupLocalSettingsStep pp
      (st.1, { st.2 with fileList := st.2.fileList ++ [fileListManifestPath pp] }) >>=
    fun st =>
  consolidateTail pp platform (compareManifestsUpd parseJson pp st)

/-- `consolidateLocalRemote`: load the project settings (an error is
recorded in the context result and the function returns false), run the
forward pass, on success write the upgrade report (best-effort) and
return true, on an exception roll back and rethrow `injected`. -/
def consolidateLocalRemote (parseJson : String → Option Json)
    (parseManifest : String → TeamsAppManifest)
    (serializeManifest : TeamsAppManifest → String) (injected : FxError) (budget : Nat)
    (loadRes : Except FxError ProjectSettings) (pp : FsPath) (platform : Platform)
    (fs0 : FS) : RunResult :=
  match loadRes with
  | .error e =>
    { result := .ok false, ctxError := some e, fs := fs0, fileList := [], removeMap := [],
      moveFiles := "", warnings := [], telemetry := ["ProjectConsolidateUpgradeStart"] }
  | .ok projectSettings =>
    let s0 : RunState := ⟨fs0, [], [], "", [], ["ProjectConsolidateUpgradeStart"]⟩
    match consolidateBody parseJson parseManifest serializeManifest projectSettings pp
      platform budget s0 with
    | .ok (_, s) =>
      let fs2 := s.fs.copy (resourceFolder ++ [upgradeReportName])
        (backupPath pp ++ [upgradeReportName])
      { result := .ok true, ctxError := none, fs := fs2, fileList := s.fileList,
        removeMap := s.removeMap, moveFiles := s.moveFiles, warnings := s.warnings,
        telemetry := s.telemetry }
    | .error s =>
      { result := .error injected, ctxError := none,
        fs := rollbackFS s.removeMap s.fileList (backupPath pp) s.fs,
        fileList := s.fileList, removeMap := s.removeMap, moveFiles := s.moveFiles,
        warnings := s.warnings, telemetry := s.telemetry }

/-- C10: when loading the project settings fails, the run records the
load error in the context result and returns false without entering the
transformation steps: the filesystem is untouched and FileList and
RemoveMap are empty. -/
theorem consolidate_load_failure (parseJson : String → Option Json)
    (parseManifest : String → TeamsAppManifest)
    (serializeManifest : TeamsAppManifest → String) (injected : FxError) (budget : Nat)
    (e : FxError) (pp : FsPath) (platform : Platform) (fs0 : FS) :
    consolidateLocalRemote parseJson parseManifest serializeManifest injected budget
        (.error e) pp platform fs0 =
      { result := .ok false, ctxError := some e, fs := fs0, fileList := [], removeMap := [],
        moveFiles := "", warnings := [],
        telemetry := ["ProjectConsolidateUpgradeStart"] } := rfl

/-- The concrete failing input for C6: a non-SPFx project whose remote
manifest template exists. -/
def c6FS : FS :=
  ⟨[(["proj", "templates", "appPackage", "manifest.remote.template.json"], "remoteManifest")]⟩

/-- C6 (code bug): on a successful run the unified manifest is written to
`templates/appPackage/manifest.template.json`, but the path recorded in
FileList is the transposed literal `templates/appPackage/template.manifest.json`,
a path at which nothing was ever written — so FileList does not record
the path the unified manifest was actually written to. -/
theorem consolidate_fileList_transposed :
    (consolidateLocalRemote (fun _ => none) (fun _ => ⟨none, none⟩) (fun _ => "M")
        (FxError.error "io") 7 (.ok ⟨"app", false⟩) ["proj"] Platform.cli c6FS).result =
      .ok true ∧
    (consolidateLocalRemote (fun _ => none) (fun _ => ⟨none, none⟩) (fun _ => "M")
        (FxError.error "io") 7 (.ok ⟨"app", false⟩) ["proj"] Platform.cli c6FS).fileList =
      [envConfigPath ["proj"], fileListManifestPath ["proj"]] ∧
    (consolidateLocalRemote (fun _ => none) (fun _ => ⟨none, none⟩) (fun _ => "M")
        (FxError.error "io") 7 (.ok ⟨"app", false⟩) ["proj"] Platform.cli c6FS).fs.read?
      (manifestTemplatePath ["proj"]) = some "remoteManifest" ∧
    (consolidateLocalRemote (fun _ => none) (fun _ => ⟨none, none⟩) (fun _ => "M")
        (FxError.error "io") 7 (.ok ⟨"app", false⟩) ["proj"] Platform.cli c6FS).fs.read?
      (fileListManifestPath ["proj"]) = none ∧
    fileListManifestPath ["proj"] ≠ manifestTemplatePath ["proj"] :=
  ⟨rfl, rfl, rfl, rfl, by decide⟩

/-! ## Rollback machinery: path facts and restoration lemmas -/

theorem read?_some_pathExists {fs : FS} {p : FsPath} {c : String}
    (h : fs.read? p = some c) : fs.pathExists p = true := by
  rw [FS.read?] at h
  rw [FS.pathExists, List.any_eq_true]
  revert h
  generalize fs.files = l
  intro h
  induction l with
  | nil => cases h
  | cons e rest ih =>
    obtain ⟨p1, c1⟩ := e
    by_cases hp : p = p1
    · subst hp
      exact ⟨(p, c1), by simp, by simpa using segPre_refl p⟩
    · rw [lookup_cons_ne _ _ hp] at h
      obtain ⟨w, hw1, hw2⟩ := ih h
      exact ⟨w, by simp [hw1], hw2⟩

theorem segPre_false_of_append {s1 s2 : List String} (q : List String)
    (h1 : segPre s1 s2 = false) (h2 : s1.length ≤ s2.length) :
    segPre s1 (s2 ++ q) = false := by
  induction s1 generalizing s2 with
  | nil => simp [segPre] at h1
  | cons a as ih =>
    cases s2 with
    | nil => simp at h2
    | cons b bs =>
      rw [List.cons_append, segPre]
      rw [segPre] at h1
      by_cases hab : a = b
      · subst hab
        simp only [beq_self_eq_true, Bool.true_and] at h1 ⊢
        exact ih h1 (by simpa using h2)
      · simp [beq_false_of_ne hab]

/-- Disjointness of two `pp`-relative subtrees transfers from their
relative suffixes. -/
theorem segPre_rel {pp a b : FsPath} (q : FsPath)
    (h1 : segPre a b = false) (h2 : a.length ≤ b.length) :
    segPre (pp ++ a) (pp ++ b ++ q) = false := by
  rw [List.append_assoc, segPre_cancel]
  exact segPre_false_of_append q h1 h2

/-- Reads below a path disjoint from every copy destination pass through
a fold of copies. -/
theorem foldCopy_read (tgt : FsPath) :
    ∀ (rm : List (FsPath × FsPath)) (fs : FS),
      (∀ e ∈ rm, segPre e.2 tgt = false) →
      (rm.foldl (fun acc e => acc.copy e.1 e.2) fs).read? tgt = fs.read? tgt := by
  intro rm
  induction rm with
  | nil => intro fs _; rfl
  | cons e0 rest ih =>
    intro fs hall
    rw [List.foldl_cons, ih _ fun e he => hall e (by simp [he])]
    exact read?_copy_not_dst fs tgt (hall e0 (by simp))

/-- `pathExists` can only shrink under `remove`. -/
theorem pathExists_remove_mono {fs : FS} {x q : FsPath}
    (h : (fs.remove x).pathExists q = true) : fs.pathExists q = true := by
  rw [FS.remove, FS.pathExists, List.any_eq_true] at h
  obtain ⟨e, he, hq⟩ := h
  rw [List.mem_filter] at he
  rw [FS.pathExists, List.any_eq_true]
  exact ⟨e, he.1, hq⟩

theorem foldRemove_read (tgt : FsPath) :
    ∀ (fl : List FsPath) (fs : FS), (∀ p ∈ fl, segPre p tgt = false) →
      (fl.foldl (fun acc p => acc.remove p) fs).read? tgt = fs.read? tgt := by
  intro fl
  induction fl with
  | nil => intro fs _; rfl
  | cons p0 rest ih =>
    intro fs hall
    rw [List.foldl_cons, ih _ fun p hp => hall p (by simp [hp])]
    rw [read?_remove, if_neg (by simp [hall p0 (by simp)])]

theorem foldRemove_pathExists_mono :
    ∀ (fl : List FsPath) (fs : FS) (q : FsPath),
      ((fl.foldl (fun acc x => acc.remove x) fs).pathExists q) = true →
      fs.pathExists q = true := by
  intro fl
  induction fl with
  | nil => intro fs q h; exact h
  | cons p0 rest ih =>
    intro fs q h
    rw [List.foldl_cons] at h
    exact pathExists_remove_mono (ih _ q h)

theorem foldRemove_kills :
    ∀ (fl : List FsPath) (fs : FS) (p : FsPath), p ∈ fl →
      ((fl.foldl (fun acc x => acc.remove x) fs).pathExists p) = false := by
  intro fl
  induction fl with
  | nil => intro fs p hp; cases hp
  | cons p0 rest ih =>
    intro fs p hp
    rcases List.mem_cons.mp hp with rfl | hp2
    · rw [List.foldl_cons]
      cases hx : (rest.foldl (fun acc x => acc.remove x) (fs.remove p)).pathExists p
      · rfl
      · exfalso
        have h2 := foldRemove_pathExists_mono rest (fs.remove p) p hx
        rw [pathExists_remove_of_under fs (segPre_refl p)] at h2
        cases h2
    · rw [List.foldl_cons]
      exact ih _ p hp2

/-! ## Canonical backup entries and path disjointness facts -/

theorem segPre_cons_ne {x y : String} (hxy : (x == y) = false) (as bs : List String) :
    segPre (x :: as) (y :: bs) = false := by
  show ((x == y) && segPre as bs) = false
  rw [hxy, Bool.false_and]

theorem segPre_rel_cons (pp as bs q : FsPath) {x y : String} (hxy : (x == y) = false) :
    segPre (pp ++ (x :: as)) ((pp ++ (y :: bs)) ++ q) = false := by
  rw [List.append_assoc, List.cons_append, segPre_cancel]
  exact segPre_cons_ne hxy as (bs ++ q)

theorem ne_of_segPre_false {x y : FsPath} (h : segPre x y = false) : y ≠ x := by
  intro he
  rw [he, segPre_refl] at h
  cases h

theorem backupPath_append (pp rel : FsPath) :
    backupPath pp ++ rel = pp ++ (".backup" :: rel) := by
  simp [backupPath, backupFolder]

/-- The three RemoveMap entries the forward pass can record: the backup
location and original location of localSettings.json and of the two
legacy manifest templates. -/
def canonRM (pp : FsPath) : List (FsPath × FsPath) :=
  [(backupPath pp ++ [".fx", "configs", "localSettings.json"], localSettingsFile pp),
   (backupPath pp ++ ["templates", "appPackage", "manifest.local.template.json"],
     localManifestFile pp),
   (backupPath pp ++ ["templates", "appPackage", "manifest.remote.template.json"],
     remoteManifestFile pp)]

theorem canon_cases {pp : FsPath} {e : FsPath × FsPath} (h : e ∈ canonRM pp) :
    e = (backupPath pp ++ [".fx", "configs", "localSettings.json"], localSettingsFile pp) ∨
    e = (backupPath pp ++ ["templates", "appPackage", "manifest.local.template.json"],
      localManifestFile pp) ∨
    e = (backupPath pp ++ ["templates", "appPackage", "manifest.remote.template.json"],
      remoteManifestFile pp) := by
  simpa [canonRM] using h

/-- No canonical origin subtree meets any canonical backup subtree. -/
theorem canon_origin_vs_bk {pp : FsPath} {e e' : FsPath × FsPath}
    (he : e ∈ canonRM pp) (he' : e' ∈ canonRM pp) (q : FsPath) :
    segPre e'.2 (e.1 ++ q) = false := by
  rcases canon_cases he with rfl | rfl | rfl <;>
    rcases canon_cases he' with rfl | rfl | rfl <;>
    · dsimp only
      simp only [localSettingsFile, localManifestFile, remoteManifestFile, backupPath_append]
      exact segPre_rel q (by decide) (by decide)

/-- Distinct canonical origin subtrees are mutually disjoint. -/
theorem canon_origin_vs_origin {pp : FsPath} {e e' : FsPath × FsPath}
    (he : e ∈ canonRM pp) (he' : e' ∈ canonRM pp) (hne : e'.2 ≠ e.2) (q : FsPath) :
    segPre e'.2 (e.2 ++ q) = false := by
  rcases canon_cases he with rfl | rfl | rfl <;>
    rcases canon_cases he' with rfl | rfl | rfl <;>
    first
      | exact absurd rfl hne
      | · dsimp only
          simp only [localSettingsFile, localManifestFile, remoteManifestFile]
          exact segPre_rel q (by decide) (by decide)

/-- A canonical entry is determined by its origin path. -/
theorem canon_snd_inj {pp : FsPath} {e e' : FsPath × FsPath}
    (he : e ∈ canonRM pp) (he' : e' ∈ canonRM pp) (h2 : e'.2 = e.2) : e'.1 = e.1 := by
  rcases canon_cases he with rfl | rfl | rfl <;>
    rcases canon_cases he' with rfl | rfl | rfl <;>
    first
      | rfl
      | · exfalso
          dsimp only at h2
          simp only [localSettingsFile, localManifestFile, remoteManifestFile] at h2
          exact absurd (List.append_cancel_left h2) (by decide)

theorem pathExists_remove_false {fs : FS} {x q : FsPath} (h : fs.pathExists q = false) :
    (fs.remove x).pathExists q = false := by
  cases hx : (fs.remove x).pathExists q
  · rfl
  · exact absurd (pathExists_remove_mono hx) (by simp [h])

/-- Rolling the rollback copies forward restores an origin subtree from its
backup, provided no copy destination overlaps the backup source, no other
destination overlaps the origin, and every entry for this origin carries
this backup path. -/
theorem foldCopy_restore :
    ∀ (rm : List (FsPath × FsPath)) (fs : FS) (bk orig q : FsPath) (c : String),
      (∀ e ∈ rm, segPre e.2 (bk ++ q) = false) →
      (∀ e ∈ rm, e.2 ≠ orig → segPre e.2 (orig ++ q) = false) →
      (∀ e ∈ rm, e.2 = orig → e.1 = bk) →
      fs.read? (bk ++ q) = some c →
      ((bk, orig) ∈ rm ∨ fs.read? (orig ++ q) = some c) →
      (rm.foldl (fun acc e => acc.copy e.1 e.2) fs).read? (bk ++ q) = some c ∧
      (rm.foldl (fun acc e => acc.copy e.1 e.2) fs).read? (orig ++ q) = some c := by
  intro rm
  induction rm with
  | nil =>
    intro fs bk orig q c _ _ _ hbk hor
    rcases hor with h | h
    · cases h
    · exact ⟨hbk, h⟩
  | cons e0 rest ih =>
    intro fs bk orig q c hA hB hC hbk hor
    rw [List.foldl_cons]
    have hbk' : (fs.copy e0.1 e0.2).read? (bk ++ q) = some c := by
      rw [read?_copy_not_dst fs (bk ++ q) (hA e0 (by simp))]
      exact hbk
    by_cases h0 : e0.2 = orig
    · have h1 : e0.1 = bk := hC e0 (by simp) h0
      have hor' : (fs.copy e0.1 e0.2).read? (orig ++ q) = some c := by
        rw [h0, h1, read?_copy_dst fs bk orig q, hbk]
      exact ih _ bk orig q c (fun e he => hA e (List.mem_cons_of_mem e0 he))
        (fun e he hne => hB e (List.mem_cons_of_mem e0 he) hne)
        (fun e he heq => hC e (List.mem_cons_of_mem e0 he) heq) hbk' (Or.inr hor')
    · have hor' : (bk, orig) ∈ rest ∨ (fs.copy e0.1 e0.2).read? (orig ++ q) = some c := by
        rcases hor with hm | hr
        · rcases List.mem_cons.mp hm with he0 | hrest
          · exact absurd (congrArg Prod.snd he0).symm h0
          · exact Or.inl hrest
        · refine Or.inr ?_
          rw [read?_copy_not_dst fs (orig ++ q) (hB e0 (by simp) h0)]
          exact hr
      exact ih _ bk orig q c (fun e he => hA e (List.mem_cons_of_mem e0 he))
        (fun e he hne => hB e (List.mem_cons_of_mem e0 he) hne)
        (fun e he heq => hC e (List.mem_cons_of_mem e0 he) heq) hbk' hor'

/-! ## Predicate-transformer machinery over the crash-injected run monad -/

/-- `Outcome m Pc Pok`: if `m` raises, the carried state satisfies `Pc`;
if it returns, the returned state satisfies `Pok`. -/
def Outcome : RunM (Nat × RunState) → (RunState → Prop) → (RunState → Prop) → Prop
  | .error s, Pc, _ => Pc s
  | .ok st, _, Pok => Pok st.2

theorem Outcome_bind {m : RunM (Nat × RunState)} {f : Nat × RunState → RunM (Nat × RunState)}
    {Pc Q Pok : RunState → Prop} (h1 : Outcome m Pc Q)
    (h2 : ∀ st : Nat × RunState, Q st.2 → Outcome (f st) Pc Pok) :
    Outcome (m >>= f) Pc Pok := by
  cases m with
  | error s => exact h1
  | ok st => exact h2 st h1

theorem Outcome_fsOp {Pc Pok : RunState → Prop} (f : FS → FS) (b : Nat) (s : RunState)
    (hc : Pc s) (hok : Pok { s with fs := f s.fs }) :
    Outcome (fsOp f (b, s)) Pc Pok := by
  cases b with
  | zero => exact hc
  | succ n => exact hok

theorem Outcome_pure {Pc Pok : RunState → Prop} (st : Nat × RunState) (h : Pok st.2) :
    Outcome (pure st : RunM (Nat × RunState)) Pc Pok := h

theorem Outcome_ite {c : Bool} {m1 m2 : RunM (Nat × RunState)} {Pc Pok : RunState → Prop}
    (h1 : Outcome m1 Pc Pok) (h2 : Outcome m2 Pc Pok) :
    Outcome (if c then m1 else m2) Pc Pok := by
  cases c
  · simpa using h2
  · simpa using h1

/-! ## The forward-pass invariant -/

/-- A RemoveMap entry is live: the backup subtree holds every original
file the pre-run filesystem had below the entry's origin. -/
def BK (fs0 fs : FS) (e : FsPath × FsPath) : Prop :=
  ∀ q c, fs0.read? (e.2 ++ q) = some c → fs.read? (e.1 ++ q) = some c

/-- FileList only ever holds the env config path and the (transposed)
manifest path. -/
def FL (pp : FsPath) (s : RunState) : Prop :=
  ∀ p ∈ s.fileList, p = envConfigPath pp ∨ p = fileListManifestPath pp

def RMgood (fs0 : FS) (pp : FsPath) (s : RunState) : Prop :=
  (∀ e ∈ s.removeMap, e ∈ canonRM pp) ∧ (∀ e ∈ s.removeMap, BK fs0 s.fs e)

/-- The invariant of every state of the forward pass, crash or return:
RemoveMap entries are canonical and restorable, FileList is canonical,
and a nonempty RemoveMap means the env config path was recorded. -/
def Good (fs0 : FS) (pp : FsPath) (s : RunState) : Prop :=
  RMgood fs0 pp s ∧ FL pp s ∧
    (s.removeMap = [] ∨ envConfigPath pp ∈ s.fileList)

theorem Good_of_empty {fs0 : FS} {pp : FsPath} {s : RunState} (h1 : s.removeMap = [])
    (h2 : FL pp s) : Good fs0 pp s :=
  ⟨⟨fun e he => absurd (h1 ▸ he) (List.not_mem_nil e),
    fun e he => absurd (h1 ▸ he) (List.not_mem_nil e)⟩, h2, Or.inl h1⟩

/-- A subtree still reads exactly as in the pre-run filesystem. -/
def Fresh (fs0 : FS) (o : FsPath) (fs : FS) : Prop :=
  ∀ q, fs.read? (o ++ q) = fs0.read? (o ++ q)

theorem Fresh_write {fs0 fs : FS} {o : FsPath} (h : Fresh fs0 o fs) {p : FsPath} (c : String)
    (hp : ∀ q, segPre p (o ++ q) = false) : Fresh fs0 o (fs.write p c) := by
  intro q
  rw [read?_write_ne fs c (ne_of_segPre_false (hp q))]
  exact h q

theorem Fresh_copy {fs0 fs : FS} {o : FsPath} (h : Fresh fs0 o fs) {src dst : FsPath}
    (hp : ∀ q, segPre dst (o ++ q) = false) : Fresh fs0 o (fs.copy src dst) := by
  intro q
  rw [read?_copy_not_dst fs (o ++ q) (hp q)]
  exact h q

theorem Fresh_remove {fs0 fs : FS} {o : FsPath} (h : Fresh fs0 o fs) {p : FsPath}
    (hp : ∀ q, segPre p (o ++ q) = false) : Fresh fs0 o (fs.remove p) := by
  intro q
  rw [read?_remove, if_neg (by simp [hp q])]
  exact h q

theorem BK_write {fs0 fs : FS} {e : FsPath × FsPath} (h : BK fs0 fs e) {p : FsPath}
    (c : String) (hp : ∀ q, segPre p (e.1 ++ q) = false) : BK fs0 (fs.write p c) e := by
  intro q c2 hq
  rw [read?_write_ne fs c (ne_of_segPre_false (hp q))]
  exact h q c2 hq

theorem BK_copy {fs0 fs : FS} {e : FsPath × FsPath} (h : BK fs0 fs e) {src dst : FsPath}
    (hp : ∀ q, segPre dst (e.1 ++ q) = false) : BK fs0 (fs.copy src dst) e := by
  intro q c2 hq
  rw [read?_copy_not_dst fs (e.1 ++ q) (hp q)]
  exact h q c2 hq

theorem BK_remove {fs0 fs : FS} {e : FsPath × FsPath} (h : BK fs0 fs e) {p : FsPath}
    (hp : ∀ q, segPre p (e.1 ++ q) = false) : BK fs0 (fs.remove p) e := by
  intro q c2 hq
  rw [read?_remove, if_neg (by simp [hp q])]
  exact h q c2 hq

/-- A fresh origin subtree turns, on copy into the backup folder, into a
live backup entry. -/
theorem BK_establish {fs0 fs : FS} {o bkp : FsPath} (h : Fresh fs0 o fs) :
    BK fs0 (fs.copy o bkp) (bkp, o) := by
  intro q c hq
  rw [read?_copy_dst fs o bkp q, h q, hq]

theorem read?_gitignore (pp : FsPath) (entry : String) (fs : FS) (t : FsPath)
    (ht : t ≠ pp ++ [".gitignore"]) :
    (addPathToGitignore pp entry fs).read? t = fs.read? t := by
  simp only [addPathToGitignore]
  split
  · rfl
  · exact read?_write_ne fs _ ht

theorem gi_vs_bk {pp : FsPath} {e : FsPath × FsPath} (he : e ∈ canonRM pp) (q : FsPath) :
    segPre (pp ++ [".gitignore"]) (e.1 ++ q) = false := by
  rcases canon_cases he with rfl | rfl | rfl <;>
    · dsimp only
      rw [backupPath_append]
      exact segPre_rel q (by decide) (by decide)

theorem BK_gitignore {fs0 fs : FS} {e : FsPath × FsPath} (h : BK fs0 fs e) (pp : FsPath)
    (entry : String) (he : e ∈ canonRM pp) : BK fs0 (addPathToGitignore pp entry fs) e := by
  intro q c hq
  rw [read?_gitignore pp entry fs _ (ne_of_segPre_false (gi_vs_bk he q))]
  exact h q c hq

/-! ## Pairwise disjointness of the paths the forward pass touches -/

theorem mt_vs_origin (pp : FsPath) {o : FsPath}
    (ho : o = localSettingsFile pp ∨ o = localManifestFile pp ∨ o = remoteManifestFile pp)
    (q : FsPath) : segPre (manifestTemplatePath pp) (o ++ q) = false := by
  rcases ho with rfl | rfl | rfl <;>
    (simp only [manifestTemplatePath, localSettingsFile, localManifestFile, remoteManifestFile];
     exact segPre_rel q (by decide) (by decide))

theorem env_vs_origin (pp : FsPath) {o : FsPath}
    (ho : o = localSettingsFile pp ∨ o = localManifestFile pp ∨ o = remoteManifestFile pp)
    (q : FsPath) : segPre (envConfigPath pp) (o ++ q) = false := by
  rcases ho with rfl | rfl | rfl <;>
    (simp only [envConfigPath, localSettingsFile, localManifestFile, remoteManifestFile];
     exact segPre_rel q (by decide) (by decide))

theorem bk_vs_origin (pp rel : FsPath) {o : FsPath}
    (ho : o = localSettingsFile pp ∨ o = localManifestFile pp ∨ o = remoteManifestFile pp)
    (q : FsPath) : segPre (backupPath pp ++ rel) (o ++ q) = false := by
  rcases ho with rfl | rfl | rfl <;>
    (rw [backupPath_append];
     simp only [localSettingsFile, localManifestFile, remoteManifestFile];
     exact segPre_rel_cons pp _ _ q (by decide))

theorem origin_vs_backup (pp rest q : FsPath) {o : FsPath}
    (ho : o = localSettingsFile pp ∨ o = localManifestFile pp ∨ o = remoteManifestFile pp) :
    segPre o ((backupPath pp ++ rest) ++ q) = false := by
  rw [backupPath_append]
  rcases ho with rfl | rfl | rfl <;>
    (simp only [localSettingsFile, localManifestFile, remoteManifestFile];
     exact segPre_rel_cons pp _ _ q (by decide))

theorem origin_vs_origin (pp : FsPath) {o o2 : FsPath}
    (ho : o = localSettingsFile pp ∨ o = localManifestFile pp ∨ o = remoteManifestFile pp)
    (ho2 : o2 = localSettingsFile pp ∨ o2 = localManifestFile pp ∨ o2 = remoteManifestFile pp)
    (hne : o ≠ o2) (q : FsPath) : segPre o (o2 ++ q) = false := by
  rcases ho with rfl | rfl | rfl <;> rcases ho2 with rfl | rfl | rfl <;>
    first
      | exact absurd rfl hne
      | (simp only [localSettingsFile, localManifestFile, remoteManifestFile];
         exact segPre_rel q (by decide) (by decide))

theorem bkrel_vs_bkrel (pp : FsPath) {r1 r2 : FsPath} (q : FsPath)
    (h : segPre (".backup" :: r1) (".backup" :: r2) = false)
    (hl : r1.length ≤ r2.length) :
    segPre (backupPath pp ++ r1) ((backupPath pp ++ r2) ++ q) = false := by
  rw [backupPath_append, backupPath_append]
  exact segPre_rel q h (by simpa using hl)

theorem origin_vs_canonbk {pp : FsPath} {e : FsPath × FsPath} (he : e ∈ canonRM pp)
    {o : FsPath}
    (ho : o = localSettingsFile pp ∨ o = localManifestFile pp ∨ o = remoteManifestFile pp)
    (q : FsPath) : segPre o (e.1 ++ q) = false := by
  rcases canon_cases he with rfl | rfl | rfl <;>
    (dsimp only; exact origin_vs_backup pp _ q ho)

theorem canon_origin_form {pp : FsPath} {e : FsPath × FsPath} (he : e ∈ canonRM pp) :
    e.2 = localSettingsFile pp ∨ e.2 = localManifestFile pp ∨ e.2 = remoteManifestFile pp := by
  rcases canon_cases he with rfl | rfl | rfl
  · exact Or.inl rfl
  · exact Or.inr (Or.inl rfl)
  · exact Or.inr (Or.inr rfl)

theorem LS_ne_LM (pp : FsPath) : localSettingsFile pp ≠ localManifestFile pp := by
  intro h
  simp only [localSettingsFile, localManifestFile] at h
  exact absurd (List.append_cancel_left h) (by decide)

theorem LS_ne_RM (pp : FsPath) : localSettingsFile pp ≠ remoteManifestFile pp := by
  intro h
  simp only [localSettingsFile, remoteManifestFile] at h
  exact absurd (List.append_cancel_left h) (by decide)

theorem LM_ne_RM (pp : FsPath) : localManifestFile pp ≠ remoteManifestFile pp := by
  intro h
  simp only [localManifestFile, remoteManifestFile] at h
  exact absurd (List.append_cancel_left h) (by decide)

theorem E2_ne_E1 (pp : FsPath) :
    (backupPath pp ++ ["templates", "appPackage", "manifest.local.template.json"],
        localManifestFile pp) ≠
      (backupPath pp ++ [".fx", "configs", "localSettings.json"], localSettingsFile pp) := by
  intro h
  have h2 := congrArg Prod.snd h
  dsimp only at h2
  exact absurd h2 (Ne.symm (LS_ne_LM pp))

theorem E3_ne_E1 (pp : FsPath) :
    (backupPath pp ++ ["templates", "appPackage", "manifest.remote.template.json"],
        remoteManifestFile pp) ≠
      (backupPath pp ++ [".fx", "configs", "localSettings.json"], localSettingsFile pp) := by
  intro h
  have h2 := congrArg Prod.snd h
  dsimp only at h2
  exact absurd h2 (Ne.symm (LS_ne_RM pp))

theorem E3_ne_E2 (pp : FsPath) :
    (backupPath pp ++ ["templates", "appPackage", "manifest.remote.template.json"],
        remoteManifestFile pp) ≠
      (backupPath pp ++ ["templates", "appPackage", "manifest.local.template.json"],
        localManifestFile pp) := by
  intro h
  have h2 := congrArg Prod.snd h
  dsimp only at h2
  exact absurd h2 (Ne.symm (LM_ne_RM pp))

/-! ## The walk through the forward pass -/

def Q1 (fs0 : FS) (pp : FsPath) (s : RunState) : Prop :=
  s.removeMap = [] ∧ s.fileList = [] ∧ Fresh fs0 (localSettingsFile pp) s.fs ∧
    Fresh fs0 (localManifestFile pp) s.fs ∧ Fresh fs0 (remoteManifestFile pp) s.fs

def Q2 (fs0 : FS) (pp : FsPath) (s : RunState) : Prop :=
  s.removeMap = [] ∧ FL pp s ∧ envConfigPath pp ∈ s.fileList ∧
    Fresh fs0 (localSettingsFile pp) s.fs ∧ Fresh fs0 (localManifestFile pp) s.fs ∧
    Fresh fs0 (remoteManifestFile pp) s.fs

def Q3 (fs0 : FS) (pp : FsPath) (s : RunState) : Prop :=
  RMgood fs0 pp s ∧
    (backupPath pp ++ ["templates", "appPackage", "manifest.local.template.json"],
        localManifestFile pp) ∉ s.removeMap ∧
    (backupPath pp ++ ["templates", "appPackage", "manifest.remote.template.json"],
        remoteManifestFile pp) ∉ s.removeMap ∧
    FL pp s ∧ envConfigPath pp ∈ s.fileList ∧
    Fresh fs0 (localManifestFile pp) s.fs ∧ Fresh fs0 (remoteManifestFile pp) s.fs

def Q5 (fs0 : FS) (pp : FsPath) (s : RunState) : Prop :=
  RMgood fs0 pp s ∧
    (backupPath pp ++ ["templates", "appPackage", "manifest.remote.template.json"],
        remoteManifestFile pp) ∉ s.removeMap ∧
    FL pp s ∧ envConfigPath pp ∈ s.fileList ∧ Fresh fs0 (remoteManifestFile pp) s.fs

def Q6 (fs0 : FS) (pp : FsPath) (s : RunState) : Prop :=
  RMgood fs0 pp s ∧ FL pp s ∧ envConfigPath pp ∈ s.fileList

theorem Good_of_Q3 {fs0 : FS} {pp : FsPath} {s : RunState} (h : Q3 fs0 pp s) :
    Good fs0 pp s := ⟨h.1, h.2.2.2.1, Or.inr h.2.2.2.2.1⟩

theorem Good_of_Q5 {fs0 : FS} {pp : FsPath} {s : RunState} (h : Q5 fs0 pp s) :
    Good fs0 pp s := ⟨h.1, h.2.2.1, Or.inr h.2.2.2.1⟩

theorem Good_of_Q6 {fs0 : FS} {pp : FsPath} {s : RunState} (h : Q6 fs0 pp s) :
    Good fs0 pp s := ⟨h.1, h.2.1, Or.inr h.2.2⟩

theorem step2_good {fs0 : FS} {pp : FsPath} (pm : String → TeamsAppManifest)
    (sm : TeamsAppManifest → String) (isSPFx : Bool) (st : Nat × RunState)
    (hst : Q2 fs0 pp st.2) :
    Outcome (addManifestStep pm sm isSPFx pp st) (Good fs0 pp) (Q2 fs0 pp) := by
  have hLSo : localSettingsFile pp = localSettingsFile pp ∨
      localSettingsFile pp = localManifestFile pp ∨
      localSettingsFile pp = remoteManifestFile pp := Or.inl rfl
  have hLMo : localManifestFile pp = localSettingsFile pp ∨
      localManifestFile pp = localManifestFile pp ∨
      localManifestFile pp = remoteManifestFile pp := Or.inr (Or.inl rfl)
  have hRMo : remoteManifestFile pp = localSettingsFile pp ∨
      remoteManifestFile pp = localManifestFile pp ∨
      remoteManifestFile pp = remoteManifestFile pp := Or.inr (Or.inr rfl)
  obtain ⟨hrm, hfl, henv, hLS, hLM, hRM⟩ := hst
  obtain ⟨b, s⟩ := st
  simp only [addManifestStep]
  refine Outcome_ite ?_ ?_
  · refine Outcome_ite ?_ ?_
    · refine Outcome_fsOp _ _ _ ?_ ?_
      · exact Good_of_empty hrm hfl
      · exact ⟨hrm, hfl, henv,
          Fresh_write hLS _ (mt_vs_origin pp hLSo),
          Fresh_write hLM _ (mt_vs_origin pp hLMo),
          Fresh_write hRM _ (mt_vs_origin pp hRMo)⟩
    · refine Outcome_fsOp _ _ _ ?_ ?_
      · exact Good_of_empty hrm hfl
      · exact ⟨hrm, hfl, henv,
          Fresh_copy hLS (mt_vs_origin pp hLSo),
          Fresh_copy hLM (mt_vs_origin pp hLMo),
          Fresh_copy hRM (mt_vs_origin pp hRMo)⟩
  · exact Outcome_pure _ ⟨hrm, hfl, henv, hLS, hLM, hRM⟩

theorem step3_good {fs0 : FS} {pp : FsPath} (st : Nat × RunState) (hst : Q2 fs0 pp st.2) :
    Outcome (backupLocalSettingsStep pp st) (Good fs0 pp) (Q3 fs0 pp) := by
  have hLSo : localSettingsFile pp = localSettingsFile pp ∨
      localSettingsFile pp = localManifestFile pp ∨
      localSettingsFile pp = remoteManifestFile pp := Or.inl rfl
  have hLMo : localManifestFile pp = localSettingsFile pp ∨
      localManifestFile pp = localManifestFile pp ∨
      localManifestFile pp = remoteManifestFile pp := Or.inr (Or.inl rfl)
  have hRMo : remoteManifestFile pp = localSettingsFile pp ∨
      remoteManifestFile pp = localManifestFile pp ∨
      remoteManifestFile pp = remoteManifestFile pp := Or.inr (Or.inr rfl)
  obtain ⟨hrm, hfl, henv, hLS, hLM, hRM⟩ := hst
  obtain ⟨b, s⟩ := st
  simp only [backupLocalSettingsStep]
  refine Outcome_ite ?_ ?_
  · refine Outcome_bind (Q := fun s => s.removeMap = [] ∧ FL pp s ∧
        envConfigPath pp ∈ s.fileList ∧ Fresh fs0 (localManifestFile pp) s.fs ∧
        Fresh fs0 (remoteManifestFile pp) s.fs ∧
        BK fs0 s.fs (backupPath pp ++ [".fx", "configs", "localSettings.json"],
          localSettingsFile pp)) ?_ ?_
    · refine Outcome_fsOp _ _ _ ?_ ?_
      · exact Good_of_empty hrm hfl
      · exact ⟨hrm, hfl, henv,
          Fresh_copy hLM (bk_vs_origin pp _ hLMo),
          Fresh_copy hRM (bk_vs_origin pp _ hRMo),
          BK_establish hLS⟩
    · intro st3 hst3
      obtain ⟨hrm3, hfl4, henv4, hLM3, hRM3, hBK1⟩ := hst3
      refine Outcome_bind (Q := fun s => s.removeMap = [] ∧ FL pp s ∧
          envConfigPath pp ∈ s.fileList ∧ Fresh fs0 (localManifestFile pp) s.fs ∧
          Fresh fs0 (remoteManifestFile pp) s.fs ∧
          BK fs0 s.fs (backupPath pp ++ [".fx", "configs", "localSettings.json"],
            localSettingsFile pp)) ?_ ?_
      · refine Outcome_fsOp _ _ _ ?_ ?_
        · exact Good_of_empty hrm3 hfl4
        · exact ⟨hrm3, hfl4, henv4,
            Fresh_remove hLM3 (origin_vs_origin pp hLSo hLMo (LS_ne_LM pp)),
            Fresh_remove hRM3 (origin_vs_origin pp hLSo hRMo (LS_ne_RM pp)),
            BK_remove hBK1 (fun q => origin_vs_backup pp _ q hLSo)⟩
      · intro st4 hst4
        obtain ⟨hrm4, hfl5, henv5, hLM4, hRM4, hBK1b⟩ := hst4
        refine Outcome_pure _ ?_
        refine ⟨⟨?_, ?_⟩, ?_, ?_, hfl5, henv5, hLM4, hRM4⟩
        · intro e he
          rw [hrm4, List.nil_append] at he
          rcases List.mem_singleton.mp he with rfl
          simp [canonRM]
        · intro e he
          rw [hrm4, List.nil_append] at he
          rcases List.mem_singleton.mp he with rfl
          exact hBK1b
        · intro h
          rw [hrm4, List.nil_append] at h
          exact E2_ne_E1 pp (List.mem_singleton.mp h)
        · intro h
          rw [hrm4, List.nil_append] at h
          exact E3_ne_E1 pp (List.mem_singleton.mp h)
  · refine Outcome_pure _ ?_
    refine ⟨⟨?_, ?_⟩, ?_, ?_, hfl, henv, hLM, hRM⟩
    · intro e he
      rw [hrm] at he
      cases he
    · intro e he
      rw [hrm] at he
      cases he
    · rw [hrm]
      exact List.not_mem_nil _
    · rw [hrm]
      exact List.not_mem_nil _

theorem step4_good {fs0 : FS} {pp : FsPath} (pj : String → Option Json)
    (st : Nat × RunState) (hst : Q3 fs0 pp st.2) :
    Q3 fs0 pp (compareManifestsUpd pj pp st).2 := by
  unfold compareManifestsUpd
  split
  · exact hst
  · exact hst

theorem step5_good {fs0 : FS} {pp : FsPath} (st : Nat × RunState) (hst : Q3 fs0 pp st.2) :
    Outcome (backupLocalManifestStep pp st) (Good fs0 pp) (Q5 fs0 pp) := by
  have hLMo : localManifestFile pp = localSettingsFile pp ∨
      localManifestFile pp = localManifestFile pp ∨
      localManifestFile pp = remoteManifestFile pp := Or.inr (Or.inl rfl)
  have hRMo : remoteManifestFile pp = localSettingsFile pp ∨
      remoteManifestFile pp = localManifestFile pp ∨
      remoteManifestFile pp = remoteManifestFile pp := Or.inr (Or.inr rfl)
  obtain ⟨⟨hA, hB⟩, hE2, hE3, hFL, hENV, hLM5, hRM5⟩ := hst
  obtain ⟨b, s⟩ := st
  simp only [backupLocalManifestStep]
  refine Outcome_ite ?_ ?_
  · refine Outcome_bind (Q := fun s => RMgood fs0 pp s ∧
        (backupPath pp ++ ["templates", "appPackage",
            "manifest.remote.template.json"], remoteManifestFile pp) ∉ s.removeMap ∧
        FL pp s ∧ envConfigPath pp ∈ s.fileList ∧
        Fresh fs0 (remoteManifestFile pp) s.fs ∧
        BK fs0 s.fs (backupPath pp ++ ["templates", "appPackage",
            "manifest.local.template.json"], localManifestFile pp)) ?_ ?_
    · refine Outcome_fsOp _ _ _ ?_ ?_
      · exact ⟨⟨hA, hB⟩, hFL, Or.inr hENV⟩
      · refine ⟨⟨hA, ?_⟩, hE3, hFL, hENV,
          Fresh_copy hRM5 (bk_vs_origin pp _ hRMo), BK_establish hLM5⟩
        intro e he
        refine BK_copy (hB e he) ?_
        intro q
        rcases canon_cases (hA e he) with rfl | rfl | rfl
        · dsimp only
          exact bkrel_vs_bkrel pp q (by decide) (by decide)
        · exact absurd he hE2
        · dsimp only
          exact bkrel_vs_bkrel pp q (by decide) (by decide)
    · intro st6 hst6
      obtain ⟨⟨hA6, hB6⟩, hE36, hFL6, hENV6, hRM6, hBK2⟩ := hst6
      refine Outcome_bind (Q := fun s => RMgood fs0 pp s ∧
          (backupPath pp ++ ["templates", "appPackage",
              "manifest.remote.template.json"], remoteManifestFile pp) ∉ s.removeMap ∧
          FL pp s ∧ envConfigPath pp ∈ s.fileList ∧
          Fresh fs0 (remoteManifestFile pp) s.fs ∧
          BK fs0 s.fs (backupPath pp ++ ["templates", "appPackage",
              "manifest.local.template.json"], localManifestFile pp)) ?_ ?_
      · refine Outcome_fsOp _ _ _ ?_ ?_
        · exact ⟨⟨hA6, hB6⟩, hFL6, Or.inr hENV6⟩
        · refine ⟨⟨hA6, ?_⟩, hE36, hFL6, hENV6,
            Fresh_remove hRM6 (origin_vs_origin pp hLMo hRMo (LM_ne_RM pp)),
            BK_remove hBK2 (fun q => origin_vs_backup pp _ q hLMo)⟩
          intro e he
          exact BK_remove (hB6 e he) (fun q => origin_vs_canonbk (hA6 e he) hLMo q)
      · intro st7 hst7
        obtain ⟨⟨hA7, hB7⟩, hE37, hFL7, hENV7, hRM7, hBK2b⟩ := hst7
        refine Outcome_pure _ ?_
        refine ⟨⟨?_, ?_⟩, ?_, hFL7, hENV7, hRM7⟩
        · intro e he
          rcases List.mem_append.mp he with h | h
          · exact hA7 e h
          · rcases List.mem_singleton.mp h with rfl
            simp [canonRM]
        · intro e he
          rcases List.mem_append.mp he with h | h
          · exact hB7 e h
          · rcases List.mem_singleton.mp h with rfl
            exact hBK2b
        · intro h
          rcases List.mem_append.mp h with h2 | h2
          · exact hE37 h2
          · exact E3_ne_E2 pp (List.mem_singleton.mp h2)
  · exact Outcome_pure _ ⟨⟨hA, hB⟩, hE3, hFL, hENV, hRM5⟩

theorem step6_good {fs0 : FS} {pp : FsPath} (st : Nat × RunState) (hst : Q5 fs0 pp st.2) :
    Outcome (backupRemoteManifestStep pp st) (Good fs0 pp) (Q6 fs0 pp) := by
  have hRMo : remoteManifestFile pp = localSettingsFile pp ∨
      remoteManifestFile pp = localManifestFile pp ∨
      remoteManifestFile pp = remoteManifestFile pp := Or.inr (Or.inr rfl)
  obtain ⟨⟨hA8, hB8⟩, hE38, hFL8, hENV8, hRM8⟩ := hst
  obtain ⟨b, s⟩ := st
  simp only [backupRemoteManifestStep]
  refine Outcome_ite ?_ ?_
  · refine Outcome_bind (Q := fun s => RMgood fs0 pp s ∧ FL pp s ∧
        envConfigPath pp ∈ s.fileList ∧
        BK fs0 s.fs (backupPath pp ++ ["templates", "appPackage",
            "manifest.remote.template.json"], remoteManifestFile pp)) ?_ ?_
    · refine Outcome_fsOp _ _ _ ?_ ?_
      · exact ⟨⟨hA8, hB8⟩, hFL8, Or.inr hENV8⟩
      · refine ⟨⟨hA8, ?_⟩, hFL8, hENV8, BK_establish hRM8⟩
        intro e he
        refine BK_copy (hB8 e he) ?_
        intro q
        rcases canon_cases (hA8 e he) with rfl | rfl | rfl
        · dsimp only
          exact bkrel_vs_bkrel pp q (by decide) (by decide)
        · dsimp only
          exact bkrel_vs_bkrel pp q (by decide) (by decide)
        · exact absurd he hE38
    · intro st9 hst9
      obtain ⟨⟨hA9, hB9⟩, hFL9, hENV9, hBK3⟩ := hst9
      refine Outcome_bind (Q := fun s => RMgood fs0 pp s ∧ FL pp s ∧
          envConfigPath pp ∈ s.fileList ∧
          BK fs0 s.fs (backupPath pp ++ ["templates", "appPackage",
              "manifest.remote.template.json"], remoteManifestFile pp)) ?_ ?_
      · refine Outcome_fsOp _ _ _ ?_ ?_
        · exact ⟨⟨hA9, hB9⟩, hFL9, Or.inr hENV9⟩
        · refine ⟨⟨hA9, ?_⟩, hFL9, hENV9,
            BK_remove hBK3 (fun q => origin_vs_backup pp _ q hRMo)⟩
          intro e he
          exact BK_remove (hB9 e he) (fun q => origin_vs_canonbk (hA9 e he) hRMo q)
      · intro st10 hst10
        obtain ⟨⟨hA10, hB10⟩, hFL10, hENV10, hBK3b⟩ := hst10
        refine Outcome_pure _ ?_
        refine ⟨⟨?_, ?_⟩, hFL10, hENV10⟩
        · intro e he
          rcases List.mem_append.mp he with h | h
          · exact hA10 e h
          · rcases List.mem_singleton.mp h with rfl
            simp [canonRM]
        · intro e he
          rcases List.mem_append.mp he with h | h
          · exact hB10 e h
          · rcases List.mem_singleton.mp h with rfl
            exact hBK3b
  · exact Outcome_pure _ ⟨⟨hA8, hB8⟩, hFL8, hENV8⟩

theorem post_good {fs0 : FS} {pp : FsPath} (platform : Platform) (st : Nat × RunState)
    (hst : Q6 fs0 pp st.2) :
    Outcome (postConsolidateStep pp platform st) (Good fs0 pp) (Good fs0 pp) := by
  obtain ⟨⟨hA11, hB11⟩, hFL11, hENV11⟩ := hst
  obtain ⟨b, s⟩ := st
  simp only [postConsolidateStep]
  refine Outcome_bind (Q := Q6 fs0 pp) ?_ ?_
  · refine Outcome_fsOp _ _ _ ?_ ?_
    · exact ⟨⟨hA11, hB11⟩, hFL11, Or.inr hENV11⟩
    · exact ⟨⟨hA11, fun e he =>
        BK_gitignore (hB11 e he) pp _ (hA11 e he)⟩, hFL11, hENV11⟩
  · intro st12 hst12
    obtain ⟨⟨hA12, hB12⟩, hFL12, hENV12⟩ := hst12
    refine Outcome_bind (Q := Q6 fs0 pp) ?_ ?_
    · refine Outcome_fsOp _ _ _ ?_ ?_
      · exact ⟨⟨hA12, hB12⟩, hFL12, Or.inr hENV12⟩
      · exact ⟨⟨hA12, fun e he =>
          BK_gitignore (hB12 e he) pp _ (hA12 e he)⟩, hFL12, hENV12⟩
    · intro st13 hst13
      obtain ⟨⟨hA13, hB13⟩, hFL13, hENV13⟩ := hst13
      refine Outcome_bind (Q := Q6 fs0 pp) ?_ ?_
      · refine Outcome_fsOp _ _ _ ?_ ?_
        · exact ⟨⟨hA13, hB13⟩, hFL13, Or.inr hENV13⟩
        · exact ⟨⟨hA13, fun e he =>
            BK_gitignore (hB13 e he) pp _ (hA13 e he)⟩, hFL13, hENV13⟩
      · intro st14 hst14
        exact Outcome_pure _ (Good_of_Q6 hst14)

theorem tail_good {fs0 : FS} {pp : FsPath} (platform : Platform) (st0 : Nat × RunState)
    (hst : Q3 fs0 pp st0.2) :
    Outcome (consolidateTail pp platform st0) (Good fs0 pp) (Good fs0 pp) := by
  rw [consolidateTail]
  refine Outcome_bind (Q := Q5 fs0 pp) (step5_good st0 hst) ?_
  intro st hst5
  refine Outcome_bind (Q := Q6 fs0 pp) (step6_good st hst5) ?_
  intro st2 hst6
  exact post_good platform st2 hst6

/-- The crash/return invariant `Good` holds at every outcome of the
forward pass: every RemoveMap entry is one of the three canonical backup
entries and is restorable, FileList only holds the two recorded paths,
and once RemoveMap is nonempty the env config path is on FileList. -/
theorem body_good (pj : String → Option Json) (pm : String → TeamsAppManifest)
    (sm : TeamsAppManifest → String) (ps : ProjectSettings) (pp : FsPath)
    (platform : Platform) (budget : Nat) (fs0 : FS) (t0 : List String) :
    Outcome (consolidateBody pj pm sm ps pp platform budget ⟨fs0, [], [], "", [], t0⟩)
      (Good fs0 pp) (Good fs0 pp) := by
  have hLSo : localSettingsFile pp = localSettingsFile pp ∨
      localSettingsFile pp = localManifestFile pp ∨
      localSettingsFile pp = remoteManifestFile pp := Or.inl rfl
  have hLMo : localManifestFile pp = localSettingsFile pp ∨
      localManifestFile pp = localManifestFile pp ∨
      localManifestFile pp = remoteManifestFile pp := Or.inr (Or.inl rfl)
  have hRMo : remoteManifestFile pp = localSettingsFile pp ∨
      remoteManifestFile pp = localManifestFile pp ∨
      remoteManifestFile pp = remoteManifestFile pp := Or.inr (Or.inr rfl)
  rw [consolidateBody]
  refine Outcome_bind (Q := Q1 fs0 pp) ?_ ?_
  · refine Outcome_fsOp _ _ _ ?_ ?_
    · exact Good_of_empty rfl fun p hp => absurd hp (List.not_mem_nil p)
    · exact ⟨rfl, rfl,
        Fresh_write (fun q => rfl) _ (env_vs_origin pp hLSo),
        Fresh_write (fun q => rfl) _ (env_vs_origin pp hLMo),
        Fresh_write (fun q => rfl) _ (env_vs_origin pp hRMo)⟩
  · intro st hst
    obtain ⟨hrm, hfl, hLS, hLM, hRM⟩ := hst
    have hfl2 : ∀ p ∈ st.2.fileList ++ [envConfigPath pp],
        p = envConfigPath pp ∨ p = fileListManifestPath pp := by
      intro p hp
      rcases List.mem_append.mp hp with h | h
      · rw [hfl] at h
        cases h
      · exact Or.inl (List.mem_singleton.mp h)
    have henv : envConfigPath pp ∈ st.2.fileList ++ [envConfigPath pp] := by simp
    refine Outcome_bind (Q := Q2 fs0 pp) (step2_good pm sm ps.isSPFx _
      ⟨hrm, hfl2, henv, hLS, hLM, hRM⟩) ?_
    intro st2 hst2
    obtain ⟨hrm, hfl, henv2, hLS, hLM, hRM⟩ := hst2
    have hfl3 : ∀ p ∈ st2.2.fileList ++ [fileListManifestPath pp],
        p = envConfigPath pp ∨ p = fileListManifestPath pp := by
      intro p hp
      rcases List.mem_append.mp hp with h | h
      · exact hfl p h
      · exact Or.inr (List.mem_singleton.mp h)
    have henv3 : envConfigPath pp ∈ st2.2.fileList ++ [fileListManifestPath pp] :=
      List.mem_append.mpr (Or.inl henv2)
    refine Outcome_bind (Q := Q3 fs0 pp) (step3_good _
      ⟨hrm, hfl3, henv3, hLS, hLM, hRM⟩) ?_
    intro st3 hst3
    exact tail_good platform _ (step4_good pj st3 hst3)

theorem flm_vs_origin (pp : FsPath) {o : FsPath}
    (ho : o = localSettingsFile pp ∨ o = localManifestFile pp ∨ o = remoteManifestFile pp)
    (q : FsPath) : segPre (fileListManifestPath pp) (o ++ q) = false := by
  rcases ho with rfl | rfl | rfl <;>
    (simp only [fileListManifestPath, localSettingsFile, localManifestFile, remoteManifestFile];
     exact segPre_rel q (by decide) (by decide))

theorem bkroot_vs_origin (pp : FsPath) {o : FsPath}
    (ho : o = localSettingsFile pp ∨ o = localManifestFile pp ∨ o = remoteManifestFile pp)
    (q : FsPath) : segPre (backupPath pp) (o ++ q) = false := by
  rcases ho with rfl | rfl | rfl <;>
    (simp only [backupPath, backupFolder, localSettingsFile, localManifestFile,
       remoteManifestFile];
     exact segPre_rel q (by decide) (by decide))

/-- C7: throughout every consolidation run — at every crash point and at
normal completion — every RemoveMap entry is one of the three canonical
backup entries, its backup copy actually exists (the backup subtree holds
every original file the pre-run filesystem had below the entry's origin),
and copying the backup back restores the original. -/
theorem removeMap_backup_invariant (pj : String → Option Json)
    (pm : String → TeamsAppManifest) (sm : TeamsAppManifest → String)
    (ps : ProjectSettings) (pp : FsPath) (platform : Platform) (budget : Nat)
    (fs0 : FS) (t0 : List String) (s : RunState) (e : FsPath × FsPath) (q : FsPath)
    (c : String)
    (hs : consolidateBody pj pm sm ps pp platform budget ⟨fs0, [], [], "", [], t0⟩ =
          .error s ∨
        ∃ b, consolidateBody pj pm sm ps pp platform budget ⟨fs0, [], [], "", [], t0⟩ =
          .ok (b, s))
    (he : e ∈ s.removeMap) (hc : fs0.read? (e.2 ++ q) = some c) :
    e ∈ canonRM pp ∧ s.fs.read? (e.1 ++ q) = some c ∧
      (s.fs.copy e.1 e.2).read? (e.2 ++ q) = some c := by
  have H := body_good pj pm sm ps pp platform budget fs0 t0
  have hG : Good fs0 pp s := by
    rcases hs with hs | hs2
    · rw [hs] at H
      exact H
    · obtain ⟨b, hs⟩ := hs2
      rw [hs] at H
      exact H
  refine ⟨hG.1.1 e he, hG.1.2 e he q c hc, ?_⟩
  rw [read?_copy_dst s.fs e.1 e.2 q, hG.1.2 e he q c hc]

/-- A concrete run used to evaluate the invariant: a project holding only
localSettings.json, crashing at the second ignore-file update. -/
def lsFS : FS := ⟨[(["proj", ".fx", "configs", "localSettings.json"], "ls")]⟩

def crashRun : RunM (Nat × RunState) :=
  consolidateBody (fun _ => none) (fun _ => ⟨none, none⟩) (fun _ => "M")
    ⟨"app", false⟩ ["proj"] Platform.cli 4
    ⟨lsFS, [], [], "", [], ["ProjectConsolidateUpgradeStart"]⟩

def crashState : RunState :=
  match crashRun with
  | .error s => s
  | .ok (_, s) => s

theorem removeMap_backup_invariant_witness :
    ((backupPath ["proj"] ++ [".fx", "configs", "localSettings.json"],
        localSettingsFile ["proj"]) ∈ crashState.removeMap ∧
      lsFS.read? (localSettingsFile ["proj"] ++ []) = some "ls") ∧
    ((backupPath ["proj"] ++ [".fx", "configs", "localSettings.json"],
        localSettingsFile ["proj"]) ∈ canonRM ["proj"] ∧
      crashState.fs.read?
        ((backupPath ["proj"] ++ [".fx", "configs", "localSettings.json"]) ++ []) =
        some "ls" ∧
      (crashState.fs.copy (backupPath ["proj"] ++ [".fx", "configs", "localSettings.json"])
          (localSettingsFile ["proj"])).read? (localSettingsFile ["proj"] ++ []) =
        some "ls") :=
  ⟨⟨by decide, rfl⟩,
    removeMap_backup_invariant (fun _ => none) (fun _ => ⟨none, none⟩) (fun _ => "M")
      ⟨"app", false⟩ ["proj"] Platform.cli 4 lsFS ["ProjectConsolidateUpgradeStart"]
      crashState
      (backupPath ["proj"] ++ [".fx", "configs", "localSettings.json"],
        localSettingsFile ["proj"])
      [] "ls" (Or.inl rfl) (by decide) rfl⟩

/-- C1: when the forward pass raises, `consolidateLocalRemote` rethrows
the injected error and rolls back: every RemoveMap entry's origin subtree
is restored from its backup, every FileList path is deleted, the backup
folder is deleted; in particular, for a run that failed after the
local-settings backup step (its RemoveMap entry is recorded), the
local-settings file is restored and the new env config file is not left
on disk. -/
theorem consolidate_rollback (pj : String → Option Json)
    (pm : String → TeamsAppManifest) (sm : TeamsAppManifest → String)
    (injected : FxError) (budget : Nat) (ps : ProjectSettings) (pp : FsPath)
    (platform : Platform) (fs0 : FS) (s : RunState) (R : RunResult)
    (hcrash : consolidateBody pj pm sm ps pp platform budget
        ⟨fs0, [], [], "", [], ["ProjectConsolidateUpgradeStart"]⟩ = .error s)
    (hR : R = consolidateLocalRemote pj pm sm injected budget (.ok ps) pp platform fs0) :
    R.result = .error injected ∧
    (∀ e ∈ R.removeMap, ∀ q c, fs0.read? (e.2 ++ q) = some c →
      R.fs.read? (e.2 ++ q) = some c) ∧
    (∀ p ∈ R.fileList, R.fs.pathExists p = false) ∧
    R.fs.pathExists (backupPath pp) = false ∧
    ((backupPath pp ++ [".fx", "configs", "localSettings.json"], localSettingsFile pp)
        ∈ R.removeMap →
      (∀ c, fs0.read? (localSettingsFile pp) = some c →
        R.fs.read? (localSettingsFile pp) = some c) ∧
      R.fs.pathExists (envConfigPath pp) = false) := by
  have H := body_good pj pm sm ps pp platform budget fs0 ["ProjectConsolidateUpgradeStart"]
  rw [hcrash] at H
  obtain ⟨⟨hA, hB⟩, hFL, hD⟩ := (H : Good fs0 pp s)
  have hRval : R =
      { result := .error injected, ctxError := none,
        fs := rollbackFS s.removeMap s.fileList (backupPath pp) s.fs,
        fileList := s.fileList, removeMap := s.removeMap, moveFiles := s.moveFiles,
        warnings := s.warnings, telemetry := s.telemetry } := by
    rw [hR]
    simp only [consolidateLocalRemote]
    rw [hcrash]
  subst hRval
  have hrestore : ∀ e ∈ s.removeMap, ∀ q c, fs0.read? (e.2 ++ q) = some c →
      (rollbackFS s.removeMap s.fileList (backupPath pp) s.fs).read? (e.2 ++ q) = some c := by
    intro e he q c hc
    have hcanon := hA e he
    have hbk : s.fs.read? (e.1 ++ q) = some c := hB e he q c hc
    have hfold := foldCopy_restore s.removeMap s.fs e.1 e.2 q c
      (fun e2 he2 => origin_vs_canonbk hcanon (canon_origin_form (hA e2 he2)) q)
      (fun e2 he2 hne =>
        origin_vs_origin pp (canon_origin_form (hA e2 he2)) (canon_origin_form hcanon) hne q)
      (fun e2 he2 heq => canon_snd_inj hcanon (hA e2 he2) heq)
      hbk (Or.inl he)
    simp only [rollbackFS]
    rw [read?_remove, if_neg (by simp [bkroot_vs_origin pp (canon_origin_form hcanon) q])]
    rw [foldRemove_read (e.2 ++ q) s.fileList
      (s.removeMap.foldl (fun acc e => acc.copy e.1 e.2) s.fs) ?_]
    · exact hfold.2
    · intro p hp
      rcases hFL p hp with rfl | rfl
      · exact env_vs_origin pp (canon_origin_form hcanon) q
      · exact flm_vs_origin pp (canon_origin_form hcanon) q
  have hdel : ∀ p ∈ s.fileList,
      (rollbackFS s.removeMap s.fileList (backupPath pp) s.fs).pathExists p = false := by
    intro p hp
    simp only [rollbackFS]
    exact pathExists_remove_false (foldRemove_kills s.fileList _ p hp)
  refine ⟨rfl, hrestore, hdel, ?_, ?_⟩
  · simp only [rollbackFS]
    exact pathExists_remove_of_under _ (segPre_refl _)
  · intro hmem
    constructor
    · intro c hc
      have h2 := hrestore _ hmem [] c (by rw [List.append_nil]; exact hc)
      rw [List.append_nil] at h2
      exact h2
    · have henvfl : envConfigPath pp ∈ s.fileList := by
        rcases hD with h | h
        · rw [h] at hmem
          cases hmem
        · exact h
      exact hdel _ henvfl

theorem consolidate_rollback_witness :
    (consolidateLocalRemote (fun _ => none) (fun _ => ⟨none, none⟩) (fun _ => "M")
        (FxError.error "io") 4 (.ok ⟨"app", false⟩) ["proj"] Platform.cli lsFS).result =
      .error (FxError.error "io") ∧
    (consolidateLocalRemote (fun _ => none) (fun _ => ⟨none, none⟩) (fun _ => "M")
        (FxError.error "io") 4 (.ok ⟨"app", false⟩) ["proj"] Platform.cli lsFS).fs.read?
      (localSettingsFile ["proj"]) = some "ls" ∧
    (consolidateLocalRemote (fun _ => none) (fun _ => ⟨none, none⟩) (fun _ => "M")
        (FxError.error "io") 4 (.ok ⟨"app", false⟩) ["proj"] Platform.cli lsFS).fs.pathExists
      (envConfigPath ["proj"]) = false ∧
    (consolidateLocalRemote (fun _ => none) (fun _ => ⟨none, none⟩) (fun _ => "M")
        (FxError.error "io") 4 (.ok ⟨"app", false⟩) ["proj"] Platform.cli lsFS).fs.pathExists
      (backupPath ["proj"]) = false := by
  have H := consolidate_rollback (fun _ => none) (fun _ => ⟨none, none⟩) (fun _ => "M")
    (FxError.error "io") 4 ⟨"app", false⟩ ["proj"] Platform.cli lsFS crashState
    (consolidateLocalRemote (fun _ => none) (fun _ => ⟨none, none⟩) (fun _ => "M")
      (FxError.error "io") 4 (.ok ⟨"app", false⟩) ["proj"] Platform.cli lsFS)
    rfl rfl
  exact ⟨H.1, (H.2.2.2.2 (by decide)).1 "ls" rfl, (H.2.2.2.2 (by decide)).2,
    H.2.2.2.1⟩

/-! ## C9: the run ignores the manifest comparison parser -/

/-- Two run states that agree on everything the migration outcome is
built from (warnings and telemetry may differ). -/
def StEq (s1 s2 : RunState) : Prop :=
  s1.fs = s2.fs ∧ s1.fileList = s2.fileList ∧ s1.removeMap = s2.removeMap ∧
    s1.moveFiles = s2.moveFiles

/-- Lock-step relation between two crash-injected computations. -/
def MEq : RunM (Nat × RunState) → RunM (Nat × RunState) → Prop
  | .error s1, .error s2 => StEq s1 s2
  | .ok st1, .ok st2 => st1.1 = st2.1 ∧ StEq st1.2 st2.2
  | _, _ => False

theorem MEq_bind {m1 m2 : RunM (Nat × RunState)}
    {f1 f2 : Nat × RunState → RunM (Nat × RunState)} (h : MEq m1 m2)
    (hf : ∀ st1 st2 : Nat × RunState, st1.1 = st2.1 → StEq st1.2 st2.2 →
      MEq (f1 st1) (f2 st2)) :
    MEq (m1 >>= f1) (m2 >>= f2) := by
  cases m1 with
  | error s1 =>
    cases m2 with
    | error s2 => exact h
    | ok st2 => exact (h : False).elim
  | ok st1 =>
    cases m2 with
    | error s2 => exact (h : False).elim
    | ok st2 => exact hf st1 st2 h.1 h.2

theorem MEq_fsOp (f : FS → FS) (b : Nat) {s1 s2 : RunState} (hs : StEq s1 s2) :
    MEq (fsOp f (b, s1)) (fsOp f (b, s2)) := by
  cases b with
  | zero => exact hs
  | succ n => exact ⟨rfl, congrArg f hs.1, hs.2.1, hs.2.2.1, hs.2.2.2⟩

theorem MEq_fsOp2 (f : FS → FS) {st1 st2 : Nat × RunState} (hb : st1.1 = st2.1)
    (hs : StEq st1.2 st2.2) : MEq (fsOp f st1) (fsOp f st2) := by
  obtain ⟨b1, s1⟩ := st1
  obtain ⟨b2, s2⟩ := st2
  dsimp at hb
  subst hb
  exact MEq_fsOp f b1 hs

theorem MEq_pure {st1 st2 : Nat × RunState} (hb : st1.1 = st2.1) (hs : StEq st1.2 st2.2) :
    MEq (pure st1 : RunM (Nat × RunState)) (pure st2) := ⟨hb, hs⟩

theorem step2_req (pm : String → TeamsAppManifest) (sm : TeamsAppManifest → String)
    (isSPFx : Bool) (pp : FsPath) {st1 st2 : Nat × RunState} (hb : st1.1 = st2.1)
    (hs : StEq st1.2 st2.2) :
    MEq (addManifestStep pm sm isSPFx pp st1) (addManifestStep pm sm isSPFx pp st2) := by
  simp only [addManifestStep]
  cases hc : st2.2.fs.pathExists (remoteManifestFile pp) with
  | false =>
    rw [if_neg (show ¬st1.2.fs.pathExists (remoteManifestFile pp) = true by rw [hs.1, hc]; simp)]
    exact ⟨hb, hs⟩
  | true =>
    rw [if_pos (show st1.2.fs.pathExists (remoteManifestFile pp) = true by rw [hs.1, hc])]
    cases isSPFx
    · exact MEq_fsOp2
        (fun fs => fs.copy (remoteManifestFile pp) (manifestTemplatePath pp)) hb hs
    · exact MEq_fsOp2
        (fun fs => fs.write (manifestTemplatePath pp)
          (sm (rewriteSPFxManifest (pm ((fs.read? (remoteManifestFile pp)).getD ""))))) hb hs

theorem step3_req (pp : FsPath) {st1 st2 : Nat × RunState} (hb : st1.1 = st2.1)
    (hs : StEq st1.2 st2.2) :
    MEq (backupLocalSettingsStep pp st1) (backupLocalSettingsStep pp st2) := by
  simp only [backupLocalSettingsStep]
  cases hc : st2.2.fs.pathExists (localSettingsFile pp) with
  | false =>
    rw [if_neg (show ¬st1.2.fs.pathExists (localSettingsFile pp) = true by rw [hs.1, hc]; simp)]
    exact ⟨hb, hs⟩
  | true =>
    rw [if_pos (show st1.2.fs.pathExists (localSettingsFile pp) = true by rw [hs.1, hc])]
    refine MEq_bind (MEq_fsOp2 _ hb hs) ?_
    intro u1 u2 hub hus
    refine MEq_bind (MEq_fsOp2 _ hub hus) ?_
    intro v1 v2 hvb hvs
    exact MEq_pure hvb ⟨hvs.1, hvs.2.1, by dsimp; rw [hvs.2.2.1], by dsimp; rw [hvs.2.2.2]⟩

theorem compareUpd_fst (pj : String → Option Json) (pp : FsPath) (st : Nat × RunState) :
    (compareManifestsUpd pj pp st).1 = st.1 := by
  simp only [compareManifestsUpd]
  cases hc : st.2.fs.pathExists (localManifestFile pp) &&
      st.2.fs.pathExists (remoteManifestFile pp) with
  | false => rfl
  | true => rfl

theorem compareUpd_fields (pj : String → Option Json) (pp : FsPath) (st : Nat × RunState) :
    (compareManifestsUpd pj pp st).2.fs = st.2.fs ∧
    (compareManifestsUpd pj pp st).2.fileList = st.2.fileList ∧
    (compareManifestsUpd pj pp st).2.removeMap = st.2.removeMap ∧
    (compareManifestsUpd pj pp st).2.moveFiles = st.2.moveFiles := by
  simp only [compareManifestsUpd]
  cases hc : st.2.fs.pathExists (localManifestFile pp) &&
      st.2.fs.pathExists (remoteManifestFile pp) with
  | false => exact ⟨rfl, rfl, rfl, rfl⟩
  | true => exact ⟨rfl, rfl, rfl, rfl⟩

theorem step4_req (pj1 pj2 : String → Option Json) (pp : FsPath)
    {st1 st2 : Nat × RunState} (hb : st1.1 = st2.1) (hs : StEq st1.2 st2.2) :
    (compareManifestsUpd pj1 pp st1).1 = (compareManifestsUpd pj2 pp st2).1 ∧
      StEq (compareManifestsUpd pj1 pp st1).2 (compareManifestsUpd pj2 pp st2).2 := by
  obtain ⟨f1, f2, f3, f4⟩ := compareUpd_fields pj1 pp st1
  obtain ⟨g1, g2, g3, g4⟩ := compareUpd_fields pj2 pp st2
  constructor
  · rw [compareUpd_fst, compareUpd_fst]
    exact hb
  · exact ⟨by rw [f1, g1]; exact hs.1, by rw [f2, g2]; exact hs.2.1,
      by rw [f3, g3]; exact hs.2.2.1, by rw [f4, g4]; exact hs.2.2.2⟩

theorem step5_req (pp : FsPath) {st1 st2 : Nat × RunState} (hb : st1.1 = st2.1)
    (hs : StEq st1.2 st2.2) :
    MEq (backupLocalManifestStep pp st1) (backupLocalManifestStep pp st2) := by
  simp only [backupLocalManifestStep]
  cases hc : st2.2.fs.pathExists (localManifestFile pp) with
  | false =>
    rw [if_neg (show ¬st1.2.fs.pathExists (localManifestFile pp) = true by rw [hs.1, hc]; simp)]
    exact ⟨hb, hs⟩
  | true =>
    rw [if_pos (show st1.2.fs.pathExists (localManifestFile pp) = true by rw [hs.1, hc])]
    refine MEq_bind (MEq_fsOp2 _ hb hs) ?_
    intro u1 u2 hub hus
    refine MEq_bind (MEq_fsOp2 _ hub hus) ?_
    intro v1 v2 hvb hvs
    exact MEq_pure hvb ⟨hvs.1, hvs.2.1, by dsimp; rw [hvs.2.2.1], by dsimp; rw [hvs.2.2.2]⟩

theorem step6_req (pp : FsPath) {st1 st2 : Nat × RunState} (hb : st1.1 = st2.1)
    (hs : StEq st1.2 st2.2) :
    MEq (backupRemoteManifestStep pp st1) (backupRemoteManifestStep pp st2) := by
  simp only [backupRemoteManifestStep]
  cases hc : st2.2.fs.pathExists (remoteManifestFile pp) with
  | false =>
    rw [if_neg (show ¬st1.2.fs.pathExists (remoteManifestFile pp) = true by rw [hs.1, hc]; simp)]
    exact ⟨hb, hs⟩
  | true =>
    rw [if_pos (show st1.2.fs.pathExists (remoteManifestFile pp) = true by rw [hs.1, hc])]
    refine MEq_bind (MEq_fsOp2 _ hb hs) ?_
    intro u1 u2 hub hus
    refine MEq_bind (MEq_fsOp2 _ hub hus) ?_
    intro v1 v2 hvb hvs
    exact MEq_pure hvb ⟨hvs.1, hvs.2.1, by dsimp; rw [hvs.2.2.1], by dsimp; rw [hvs.2.2.2]⟩

theorem post_req (pp : FsPath) (platform : Platform) {st1 st2 : Nat × RunState}
    (hb : st1.1 = st2.1) (hs : StEq st1.2 st2.2) :
    MEq (postConsolidateStep pp platform st1) (postConsolidateStep pp platform st2) := by
  simp only [postConsolidateStep]
  refine MEq_bind (MEq_fsOp2 _ hb hs) ?_
  intro u1 u2 hub hus
  refine MEq_bind (MEq_fsOp2 _ hub hus) ?_
  intro v1 v2 hvb hvs
  refine MEq_bind (MEq_fsOp2 _ hvb hvs) ?_
  intro w1 w2 hwb hws
  exact MEq_pure hwb ⟨hws.1, hws.2.1, hws.2.2.1, hws.2.2.2⟩

theorem tail_req (pp : FsPath) (platform : Platform) {st1 st2 : Nat × RunState}
    (hb : st1.1 = st2.1) (hs : StEq st1.2 st2.2) :
    MEq (consolidateTail pp platform st1) (consolidateTail pp platform st2) := by
  rw [consolidateTail, consolidateTail]
  refine MEq_bind (step5_req pp hb hs) ?_
  intro u1 u2 hub hus
  refine MEq_bind (step6_req pp hub hus) ?_
  intro v1 v2 hvb hvs
  exact post_req pp platform hvb hvs

theorem body_req (pj1 pj2 : String → Option Json) (pm : String → TeamsAppManifest)
    (sm : TeamsAppManifest → String) (ps : ProjectSettings) (pp : FsPath)
    (platform : Platform) (budget : Nat) (fs0 : FS) (t1 t2 : List String) :
    MEq (consolidateBody pj1 pm sm ps pp platform budget ⟨fs0, [], [], "", [], t1⟩)
        (consolidateBody pj2 pm sm ps pp platform budget ⟨fs0, [], [], "", [], t2⟩) := by
  rw [consolidateBody, consolidateBody]
  refine MEq_bind (MEq_fsOp _ budget ⟨rfl, rfl, rfl, rfl⟩) ?_
  intro u1 u2 hub hus
  refine MEq_bind (step2_req pm sm ps.isSPFx pp hub
    ⟨hus.1, by dsimp; rw [hus.2.1], hus.2.2.1, hus.2.2.2⟩) ?_
  intro v1 v2 hvb hvs
  refine MEq_bind (step3_req pp hvb
    ⟨hvs.1, by dsimp; rw [hvs.2.1], hvs.2.2.1, hvs.2.2.2⟩) ?_
  intro w1 w2 hwb hws
  have h4 := step4_req pj1 pj2 pp hwb hws
  exact tail_req pp platform h4.1 h4.2

theorem run_parse_independent (pj1 pj2 : String → Option Json)
    (pm : String → TeamsAppManifest) (sm : TeamsAppManifest → String)
    (injected : FxError) (budget : Nat) (loadRes : Except FxError ProjectSettings)
    (pp : FsPath) (platform : Platform) (fs0 : FS) :
    (consolidateLocalRemote pj1 pm sm injected budget loadRes pp platform fs0).result =
      (consolidateLocalRemote pj2 pm sm injected budget loadRes pp platform fs0).result ∧
    (consolidateLocalRemote pj1 pm sm injected budget loadRes pp platform fs0).fs =
      (consolidateLocalRemote pj2 pm sm injected budget loadRes pp platform fs0).fs ∧
    (consolidateLocalRemote pj1 pm sm injected budget loadRes pp platform fs0).fileList =
      (consolidateLocalRemote pj2 pm sm injected budget loadRes pp platform fs0).fileList ∧
    (consolidateLocalRemote pj1 pm sm injected budget loadRes pp platform fs0).removeMap =
      (consolidateLocalRemote pj2 pm sm injected budget loadRes pp platform fs0).removeMap := by
  cases loadRes with
  | error e => exact ⟨rfl, rfl, rfl, rfl⟩
  | ok ps =>
    have H := body_req pj1 pj2 pm sm ps pp platform budget fs0
      ["ProjectConsolidateUpgradeStart"] ["ProjectConsolidateUpgradeStart"]
    simp only [consolidateLocalRemote]
    cases h1 : consolidateBody pj1 pm sm ps pp platform budget
        ⟨fs0, [], [], "", [], ["ProjectConsolidateUpgradeStart"]⟩ with
    | error s1 =>
      cases h2 : consolidateBody pj2 pm sm ps pp platform budget
          ⟨fs0, [], [], "", [], ["ProjectConsolidateUpgradeStart"]⟩ with
      | error s2 =>
        rw [h1, h2] at H
        have H2 : StEq s1 s2 := H
        exact ⟨rfl, by dsimp only; rw [H2.1, H2.2.1, H2.2.2.1], H2.2.1, H2.2.2.1⟩
      | ok st2 =>
        rw [h1, h2] at H
        exact (H : False).elim
    | ok st1 =>
      cases h2 : consolidateBody pj2 pm sm ps pp platform budget
          ⟨fs0, [], [], "", [], ["ProjectConsolidateUpgradeStart"]⟩ with
      | error s2 =>
        rw [h1, h2] at H
        exact (H : False).elim
      | ok st2 =>
        obtain ⟨b1, s1⟩ := st1
        obtain ⟨b2, s2⟩ := st2
        rw [h1, h2] at H
        have H2 : StEq s1 s2 := H.2
        exact ⟨rfl, by dsimp only; rw [H2.1], H2.2.1, H2.2.2.1⟩

/-- A project holding both legacy manifest templates, used to run the
comparison against a failing parser. -/
def c9FS : FS :=
  ⟨[(["proj", "templates", "appPackage", "manifest.local.template.json"], "L"),
    (["proj", "templates", "appPackage", "manifest.remote.template.json"], "R")]⟩

/-- C9: a manifest parse failure inside `compareLocalAndRemoteManifest`
is caught and swallowed: the comparison returns no warning and only
flags a telemetry error event; the migration outcome (result,
filesystem, FileList, RemoveMap) is entirely independent of the parser,
so a comparison failure never aborts the migration and never triggers
the rollback; and on the concrete run with both manifest templates
present and a failing parser the migration succeeds, records the
telemetry error event, and shows no manifest-difference warning. -/
theorem compare_failure_swallowed :
    (∀ (pj : String → Option Json) (lc rc : String),
      pj lc = none ∨ pj rc = none →
        compareLocalAndRemoteManifest pj lc rc = ⟨false, true⟩) ∧
    (∀ (pj1 pj2 : String → Option Json) (pm : String → TeamsAppManifest)
        (sm : TeamsAppManifest → String) (injected : FxError) (budget : Nat)
        (loadRes : Except FxError ProjectSettings) (pp : FsPath) (platform : Platform)
        (fs0 : FS),
      (consolidateLocalRemote pj1 pm sm injected budget loadRes pp platform fs0).result =
        (consolidateLocalRemote pj2 pm sm injected budget loadRes pp platform fs0).result ∧
      (consolidateLocalRemote pj1 pm sm injected budget loadRes pp platform fs0).fs =
        (consolidateLocalRemote pj2 pm sm injected budget loadRes pp platform fs0).fs ∧
      (consolidateLocalRemote pj1 pm sm injected budget loadRes pp platform fs0).fileList =
        (consolidateLocalRemote pj2 pm sm injected budget loadRes pp platform fs0).fileList ∧
      (consolidateLocalRemote pj1 pm sm injected budget loadRes pp platform
          fs0).removeMap =
        (consolidateLocalRemote pj2 pm sm injected budget loadRes pp platform
          fs0).removeMap) ∧
    ((consolidateLocalRemote (fun _ => none) (fun _ => ⟨none, none⟩) (fun _ => "M")
        (FxError.error "io") 9 (.ok ⟨"app", false⟩) ["proj"] Platform.cli c9FS).result =
      .ok true ∧
    "ProjectConsolidateCheckManifestError" ∈
      (consolidateLocalRemote (fun _ => none) (fun _ => ⟨none, none⟩) (fun _ => "M")
        (FxError.error "io") 9 (.ok ⟨"app", false⟩) ["proj"] Platform.cli c9FS).telemetry ∧
    "core.consolidateLocalRemote.DifferentManifest" ∉
      (consolidateLocalRemote (fun _ => none) (fun _ => ⟨none, none⟩) (fun _ => "M")
        (FxError.error "io") 9 (.ok ⟨"app", false⟩) ["proj"] Platform.cli c9FS).warnings) := by
  refine ⟨?_, run_parse_independent, rfl, by decide, by decide⟩
  intro pj lc rc h
  rcases h with h | h
  · simp [compareLocalAndRemoteManifest, h]
  · cases hl : pj lc <;> simp [compareLocalAndRemoteManifest, h, hl]

theorem compare_failure_swallowed_witness :
    ((fun _ : String => (none : Option Json)) "x" = none ∨
      (fun _ : String => (none : Option Json)) "y" = none) ∧
    compareLocalAndRemoteManifest (fun _ => none) "x" "y" = ⟨false, true⟩ :=
  ⟨Or.inl rfl, compare_failure_swallowed.1 (fun _ => none) "x" "y" (Or.inl rfl)⟩

end ConsolidateMW